import Mathlib

/-!
Verification development for the `par2-integrity` reconciliation engine.

The Python sources (`config.py`, `scanner.py`, `parity.py`, `manifest.py`,
`reconciler.py`, `main.py`) are shallowly embedded as pure Lean functions.
External effects (the filesystem, SHA-256 hashing, the PAR2 subprocess, the
random sampler) are supplied through a `World` record of oracles; the SQLite
manifest is a list of rows; the parity store is a list of (directory, name)
pairs together with an event trace recording create/delete invocations and a
count of live temporary directories.  SQLite transactions only batch commits
and are semantically transparent for a single in-process client, so they are
not modelled.  Timestamps are abstract `Nat` values passed in as `now`.
-/

namespace Par2Integrity

/-- File status values stored in the `status` column (`manifest.py`,
`reconciler.py`, `main.py` use the strings "ok", "damaged", "truncated",
"repaired"). -/
inductive FStatus where
  | ok
  | damaged
  | truncated
  | repaired
deriving DecidableEq, Repr

/-- A row of the `files` table (schema in `manifest.py`). -/
structure FileRecord where
  id : Nat
  relPath : String
  dataRoot : String
  fileSize : Nat
  mtimeNs : Nat
  contentHash : String
  par2Name : String
  status : FStatus
  createdAt : Nat
  updatedAt : Nat
  verifiedAt : Option Nat
deriving DecidableEq, Repr

/-- A row of the `runs` table; counters mirror `RunStats.to_dict`. -/
structure RunRow where
  id : Nat
  startedAt : Nat
  finishedAt : Option Nat
  filesScanned : Nat
  filesCreated : Nat
  filesVerified : Nat
  filesDamaged : Nat
  filesRepaired : Nat
  filesMoved : Nat
  filesDeleted : Nat
  filesTruncated : Nat
  parityRecreated : Nat
  orphanParityCleaned : Nat
  errors : Option String
deriving DecidableEq, Repr

/-- The manifest database: the `files` and `runs` tables plus the
AUTOINCREMENT counters for their primary keys. -/
structure Manifest where
  files : List FileRecord
  nextId : Nat
  runs : List RunRow
  nextRunId : Nat
deriving DecidableEq, Repr

/-- `Manifest.get_file`: point lookup by the unique (data_root, rel_path)
key. -/
def Manifest.getFile (m : Manifest) (dataRoot relPath : String) :
    Option FileRecord :=
  m.files.find? (fun r => r.dataRoot == dataRoot && r.relPath == relPath)

/-- `Manifest.get_files_by_hash`. -/
def Manifest.getFilesByHash (m : Manifest) (contentHash : String) :
    List FileRecord :=
  m.files.filter (fun r => r.contentHash == contentHash)

/-- `Manifest.get_files_by_status` (variadic statuses in the source). -/
def Manifest.getFilesByStatus (m : Manifest) (statuses : List FStatus) :
    List FileRecord :=
  m.files.filter (fun r => statuses.contains r.status)

/-- `Manifest.has_par2_name`. -/
def Manifest.hasPar2Name (m : Manifest) (par2Name : String) : Bool :=
  m.files.any (fun r => r.par2Name == par2Name)

/-- `Manifest.upsert_file`: INSERT .. ON CONFLICT(data_root, rel_path) DO
UPDATE.  The conflict branch updates file_size, mtime_ns, content_hash,
par2_name, status and updated_at and keeps id and created_at; the insert
branch allocates a fresh id and sets created_at = updated_at = now. -/
def Manifest.upsertFile (m : Manifest) (now : Nat) (dataRoot relPath : String)
    (fileSize mtimeNs : Nat) (contentHash par2Name : String)
    (status : FStatus) : Manifest :=
  if m.files.any (fun r => r.dataRoot == dataRoot && r.relPath == relPath) then
    { m with files := m.files.map (fun r =>
        if r.dataRoot == dataRoot && r.relPath == relPath then
          { r with fileSize := fileSize, mtimeNs := mtimeNs,
                   contentHash := contentHash, par2Name := par2Name,
                   status := status, updatedAt := now }
        else r) }
  else
    let newRec : FileRecord :=
      { id := m.nextId, relPath := relPath, dataRoot := dataRoot,
        fileSize := fileSize, mtimeNs := mtimeNs, contentHash := contentHash,
        par2Name := par2Name, status := status, createdAt := now,
        updatedAt := now, verifiedAt := none }
    { m with files := m.files ++ [newRec], nextId := m.nextId + 1 }

/-- `Manifest.update_path`: UPDATE rel_path, data_root, updated_at by id. -/
def Manifest.updatePath (m : Manifest) (now : Nat) (fileId : Nat)
    (newRelPath newDataRoot : String) : Manifest :=
  { m with files := m.files.map (fun r =>
      if r.id == fileId then
        { r with relPath := newRelPath, dataRoot := newDataRoot,
                 updatedAt := now }
      else r) }

/-- `Manifest.update_mtime`: UPDATE mtime_ns, updated_at by id. -/
def Manifest.updateMtime (m : Manifest) (now : Nat) (fileId : Nat)
    (mtimeNs : Nat) : Manifest :=
  { m with files := m.files.map (fun r =>
      if r.id == fileId then { r with mtimeNs := mtimeNs, updatedAt := now }
      else r) }

/-- `Manifest.update_status`: UPDATE status, updated_at by id. -/
def Manifest.updateStatus (m : Manifest) (now : Nat) (fileId : Nat)
    (status : FStatus) : Manifest :=
  { m with files := m.files.map (fun r =>
      if r.id == fileId then { r with status := status, updatedAt := now }
      else r) }

/-- `Manifest.mark_verified`: UPDATE verified_at, updated_at by id. -/
def Manifest.markVerified (m : Manifest) (now : Nat) (fileId : Nat) :
    Manifest :=
  { m with files := m.files.map (fun r =>
      if r.id == fileId then
        { r with verifiedAt := some now, updatedAt := now }
      else r) }

/-- `Manifest.delete_file`: DELETE by id. -/
def Manifest.deleteFile (m : Manifest) (fileId : Nat) : Manifest :=
  { m with files := m.files.filter (fun r => !(r.id == fileId)) }

/-- `Manifest.start_run`: INSERT a runs row with started_at = now, counters at
their column defaults; returns the fresh run id. -/
def Manifest.startRun (m : Manifest) (now : Nat) : Nat × Manifest :=
  let newRow : RunRow :=
    { id := m.nextRunId, startedAt := now, finishedAt := none,
      filesScanned := 0, filesCreated := 0, filesVerified := 0,
      filesDamaged := 0, filesRepaired := 0, filesMoved := 0,
      filesDeleted := 0, filesTruncated := 0, parityRecreated := 0,
      orphanParityCleaned := 0, errors := none }
  (m.nextRunId,
   { m with runs := m.runs ++ [newRow], nextRunId := m.nextRunId + 1 })

/-- In-memory run statistics (`RunStats` in `reconciler.py`). -/
structure RunStats where
  filesScanned : Nat
  filesCreated : Nat
  filesVerified : Nat
  filesDamaged : Nat
  filesRepaired : Nat
  filesMoved : Nat
  filesDeleted : Nat
  filesTruncated : Nat
  parityRecreated : Nat
  orphanParityCleaned : Nat
  errors : List String
deriving DecidableEq, Repr

/-- `RunStats.__init__`: every counter zero, no errors. -/
def RunStats.init : RunStats :=
  { filesScanned := 0, filesCreated := 0, filesVerified := 0,
    filesDamaged := 0, filesRepaired := 0, filesMoved := 0,
    filesDeleted := 0, filesTruncated := 0, parityRecreated := 0,
    orphanParityCleaned := 0, errors := [] }

/-- `stats.errors.append(e)`. -/
def RunStats.addError (st : RunStats) (e : String) : RunStats :=
  { st with errors := st.errors ++ [e] }

def RunStats.incCreated (st : RunStats) : RunStats :=
  { st with filesCreated := st.filesCreated + 1 }

def RunStats.incVerified (st : RunStats) : RunStats :=
  { st with filesVerified := st.filesVerified + 1 }

def RunStats.incDamaged (st : RunStats) : RunStats :=
  { st with filesDamaged := st.filesDamaged + 1 }

def RunStats.incRepaired (st : RunStats) : RunStats :=
  { st with filesRepaired := st.filesRepaired + 1 }

def RunStats.incMoved (st : RunStats) : RunStats :=
  { st with filesMoved := st.filesMoved + 1 }

def RunStats.incDeleted (st : RunStats) : RunStats :=
  { st with filesDeleted := st.filesDeleted + 1 }

def RunStats.incTruncated (st : RunStats) : RunStats :=
  { st with filesTruncated := st.filesTruncated + 1 }

def RunStats.incRecreated (st : RunStats) : RunStats :=
  { st with parityRecreated := st.parityRecreated + 1 }

def RunStats.incOrphan (st : RunStats) : RunStats :=
  { st with orphanParityCleaned := st.orphanParityCleaned + 1 }

/-- `Manifest.finish_run`: UPDATE the counters and finished_at of the run
row. -/
def RunRow.finishWith (r : RunRow) (now : Nat) (stats : RunStats) : RunRow :=
  { r with finishedAt := some now,
           filesScanned := stats.filesScanned,
           filesCreated := stats.filesCreated,
           filesVerified := stats.filesVerified,
           filesDamaged := stats.filesDamaged,
           filesRepaired := stats.filesRepaired,
           filesMoved := stats.filesMoved,
           filesDeleted := stats.filesDeleted,
           filesTruncated := stats.filesTruncated,
           parityRecreated := stats.parityRecreated,
           orphanParityCleaned := stats.orphanParityCleaned,
           errors := if stats.errors.isEmpty then none
                     else some (String.intercalate "\x0a" stats.errors) }

def Manifest.finishRun (m : Manifest) (now : Nat) (runId : Nat)
    (stats : RunStats) : Manifest :=
  { m with runs := m.runs.map (fun r =>
      if r.id == runId then r.finishWith now stats else r) }

/-- In-memory per-scan file description (`FileInfo` in `scanner.py`).  The
absolute path is kept as an opaque string key for the oracles. -/
structure FileInfo where
  absPath : String
  dataRoot : String
  relPath : String
  size : Nat
  mtimeNs : Nat
deriving DecidableEq, Repr

/-- The configuration fields consumed by the embedded components
(`config.py`). -/
structure Config where
  dataRootPath : String
  par2Redundancy : Nat
  par2Timeout : Nat
  minFileSize : Nat
  maxFileSize : Nat
  verifyPercent : Nat
  excludePatterns : List String
deriving Repr

/-- `content_hash[:2]`, the prefix directory under `by_hash`
(`Config.par2_dir_for_hash`). -/
def dirOfHash (contentHash : String) : String := contentHash.take 2

/-- `content_hash[:16]`, the artifact stem. -/
def stemOfHash (contentHash : String) : String := contentHash.take 16

/-- `Config.par2_name_for_hash`: `content_hash[:16] + ".par2"`. -/
def Config.par2NameForHash (_cfg : Config) (contentHash : String) : String :=
  stemOfHash contentHash ++ ".par2"

/-- A file inside the content-addressed parity store: the `by_hash`
subdirectory name and the file name. -/
structure PFile where
  dir : String
  name : String
deriving DecidableEq, Repr

/-- Trace events recording invocations of the parity-store operations:
a call of `create_parity` (and its boolean result), a run of the external
PAR2 encoder, and a call of `delete_parity`. -/
inductive PEvent where
  | createCall (contentHash : String) (ok : Bool)
  | encoderRun (contentHash : String)
  | deleteCall (contentHash : String)
deriving DecidableEq, Repr

/-- The on-disk parity store: the files under `by_hash`, the invocation
trace, and the number of live temporary directories under the parity root. -/
structure ParityStore where
  files : List PFile
  events : List PEvent
  tmpLeft : Nat
deriving DecidableEq, Repr

/-- Whether the base artifact `by_hash/H[:2]/H[:16].par2` exists
(`par2_path.exists()` in `parity.py`). -/
def ParityStore.hasBase (st : ParityStore) (cfg : Config)
    (contentHash : String) : Bool :=
  st.files.any (fun f =>
    f.dir == dirOfHash contentHash && f.name == cfg.par2NameForHash contentHash)

/-- Outcome of one invocation of the external `par2` binary. -/
inductive RunOutcome where
  | exited (code : Int)
  | timedOut
deriving DecidableEq, Repr

/-- Outcome of a `par2 create` invocation: the exit code together with the
files the encoder left in the temporary directory, or a timeout. -/
inductive EncResult where
  | exited (code : Int) (produced : List String)
  | timedOut
deriving DecidableEq, Repr

/-- External-world oracles: SHA-256 over a path (None models an OSError),
the PAR2 verify / repair / create subprocess outcomes, filesystem existence
and size queries keyed by absolute path, and the `random.sample` used by
phase 3. -/
structure World where
  hashOf : String → Option String
  verifyExit : String → String → RunOutcome
  repairExit : String → String → RunOutcome
  encFor : String → String → EncResult
  existsAt : String → Bool
  sizeAt : String → Option Nat
  sample : List (FileInfo × FileRecord) → Nat → List (FileInfo × FileRecord)

/-- `create_parity` (`parity.py`): success without work when the base
artifact exists; otherwise make a unique temp directory, run the encoder,
move every produced file into `by_hash/H[:2]/` on exit code 0, and remove
the temp directory on every path. -/
def createParity (cfg : Config) (w : World) (sourceFile contentHash : String)
    (st : ParityStore) : ParityStore × Bool :=
  if st.hasBase cfg contentHash then
    ({ st with events := st.events ++ [.createCall contentHash true] }, true)
  else
    let st1 : ParityStore :=
      { st with tmpLeft := st.tmpLeft + 1,
                events := st.events ++ [.encoderRun contentHash] }
    match w.encFor sourceFile contentHash with
    | .exited 0 produced =>
        let moved := produced.map
          (fun n => { dir := dirOfHash contentHash, name := n : PFile })
        ({ st1 with files := st1.files ++ moved,
                    tmpLeft := st1.tmpLeft - 1,
                    events := st1.events ++ [.createCall contentHash true] },
         true)
    | .exited _ _ =>
        ({ st1 with tmpLeft := st1.tmpLeft - 1,
                    events := st1.events ++ [.createCall contentHash false] },
         false)
    | .timedOut =>
        ({ st1 with tmpLeft := st1.tmpLeft - 1,
                    events := st1.events ++ [.createCall contentHash false] },
         false)

/-- Result of `verify_parity` (the source returns the strings "ok",
"damaged", "missing_parity", "error"). -/
inductive VerifyResult where
  | ok
  | damaged
  | missingParity
  | error
deriving DecidableEq, Repr

/-- `verify_parity` (`parity.py`): missing base artifact short-circuits;
otherwise exit 0 → ok, exit 1 → damaged, anything else or timeout →
error. -/
def verifyParity (cfg : Config) (w : World) (sourceFile contentHash : String)
    (st : ParityStore) : VerifyResult :=
  if !(st.hasBase cfg contentHash) then .missingParity
  else
    match w.verifyExit sourceFile contentHash with
    | .timedOut => .error
    | .exited 0 => .ok
    | .exited 1 => .damaged
    | .exited _ => .error

/-- `repair_file` (`parity.py`): requires the base artifact; exit 0 →
true, anything else or timeout → false. -/
def repairFile (cfg : Config) (w : World) (sourceFile contentHash : String)
    (st : ParityStore) : Bool :=
  if !(st.hasBase cfg contentHash) then false
  else
    match w.repairExit sourceFile contentHash with
    | .timedOut => false
    | .exited 0 => true
    | .exited _ => false

/-- `delete_parity` (`parity.py`): in `by_hash/H[:2]/`, unlink the base name
and every file whose name starts with `H[:16] + "."`; record the call. -/
def deleteParity (cfg : Config) (contentHash : String) (st : ParityStore) :
    ParityStore :=
  { st with
    files := st.files.filter (fun f =>
      !(f.dir == dirOfHash contentHash &&
        (f.name == cfg.par2NameForHash contentHash ||
         f.name.take (stemOfHash contentHash ++ ".").length ==
           stemOfHash contentHash ++ "."))),
    events := st.events ++ [.deleteCall contentHash] }

/-! ### Kernel-evaluable string helpers

Core `String.splitOn`, `String.endsWith` and `String.replace` are defined
through byte-position loops that the kernel cannot evaluate, so the handful
of string operations the sources need are re-implemented structurally over
`String.data`. -/

/-- `suffix check`: `s.endswith(t)` on character lists. -/
def strEndsWith (s t : String) : Bool :=
  s.data.drop (s.data.length - t.data.length) == t.data

/-- `str.split(sep)` for a one-character separator, on character lists. -/
def splitOnCharAux (sep : Char) : List Char → List Char → List String
  | [], acc => [String.mk acc.reverse]
  | d :: ds, acc =>
      if d == sep then String.mk acc.reverse :: splitOnCharAux sep ds []
      else splitOnCharAux sep ds (d :: acc)

def splitOnChar (sep : Char) (s : String) : List String :=
  splitOnCharAux sep s.data []

/-- `str.replace(pat, repl)`: left-to-right, non-overlapping.  The fuel is
bounded below by the input length, which suffices because every recursive
call consumes at least one character. -/
def replaceAllF (pat repl : List Char) : Nat → List Char → List Char
  | 0, s => s
  | _ + 1, [] => []
  | fuel + 1, c :: cs =>
      if !pat.isEmpty && pat == (c :: cs).take pat.length then
        repl ++ replaceAllF pat repl fuel ((c :: cs).drop pat.length)
      else c :: replaceAllF pat repl fuel cs

def strReplace (s pat repl : String) : String :=
  String.mk (replaceAllF pat.data repl.data (s.data.length + 1) s.data)

/-- `str.ljust(width, fill)`. -/
def ljust (s : String) (width : Nat) (fill : Char) : String :=
  s ++ String.mk (List.replicate (width - s.length) fill)

/-- Substring containment (`needle in hay` on strings). -/
def listContainsSub (pat : List Char) : List Char → Bool
  | [] => pat.isEmpty
  | c :: cs => (pat == (c :: cs).take pat.length) || listContainsSub pat cs

/-! ### Shell-style wildcard matching (`fnmatch` as used by `_should_exclude`)

`scanner.py` filters names with `fnmatch.fnmatch(name, pattern)`; on POSIX
this is a full match of the pattern against the name with `*`, `?` and
`[...]` (optionally negated by a leading `!`, with ranges, a leading `]`
taken literally, and an unterminated `[` matched literally).  The matcher
is fuel-based so that the kernel can evaluate it: every recursive call
shrinks pattern-plus-input by at least one, and the initial fuel exceeds
that sum. -/

/-- Items of a `[...]` character class; a literal `c` is the pair `(c, c)`,
a range `a-b` is `(a, b)`. -/
def charInItems (items : List (Char × Char)) (c : Char) : Bool :=
  items.any (fun p =>
    decide (p.1.toNat ≤ c.toNat) && decide (c.toNat ≤ p.2.toNat))

/-- Parse the body of a `[...]` class up to the closing `]`; `none` when the
class is unterminated. -/
def parseClassItems : List Char → Option (List (Char × Char) × List Char)
  | [] => none
  | ']' :: rest => some ([], rest)
  | a :: '-' :: b :: rest =>
      if b = ']' then some ([(a, a), ('-', '-')], rest)
      else
        match parseClassItems rest with
        | some (items, r) => some ((a, b) :: items, r)
        | none => none
  | a :: rest =>
      match parseClassItems rest with
      | some (items, r) => some ((a, a) :: items, r)
      | none => none

/-- Parse a whole class after the opening `[`: an optional leading `!`
negation, then a leading `]` taken literally, then the items. -/
def parseClass (cs : List Char) :
    Option (Bool × List (Char × Char) × List Char) :=
  match cs with
  | '!' :: ']' :: rest =>
      match parseClassItems rest with
      | some (items, r) => some (true, (']', ']') :: items, r)
      | none => none
  | '!' :: rest =>
      match parseClassItems rest with
      | some (items, r) => some (true, items, r)
      | none => none
  | ']' :: rest =>
      match parseClassItems rest with
      | some (items, r) => some (false, (']', ']') :: items, r)
      | none => none
  | rest =>
      match parseClassItems rest with
      | some (items, r) => some (false, items, r)
      | none => none

/-- Pattern tokens: `*`, `?`, a literal character, a character class. -/
inductive GTok where
  | star
  | anyChar
  | lit (c : Char)
  | cls (neg : Bool) (items : List (Char × Char))
deriving DecidableEq, Repr

/-- Tokenize a glob pattern; each step consumes at least one character, so
fuel `cs.length + 1` always suffices. -/
def compilePat : Nat → List Char → List GTok
  | 0, _ => []
  | _ + 1, [] => []
  | fuel + 1, '*' :: ps => .star :: compilePat fuel ps
  | fuel + 1, '?' :: ps => .anyChar :: compilePat fuel ps
  | fuel + 1, '[' :: ps =>
      match parseClass ps with
      | none => .lit '[' :: compilePat fuel ps
      | some (neg, items, rest) => .cls neg items :: compilePat fuel rest
  | fuel + 1, c :: ps => .lit c :: compilePat fuel ps

/-- Match a token list against an input; each recursive call shrinks
tokens-plus-input by at least one, so fuel `ts.length + s.length + 1`
always suffices. -/
def tokMatch : Nat → List GTok → List Char → Bool
  | 0, _, _ => false
  | _ + 1, [], s => s.isEmpty
  | fuel + 1, .star :: ts, [] => tokMatch fuel ts []
  | fuel + 1, .star :: ts, c :: cs =>
      tokMatch fuel ts (c :: cs) || tokMatch fuel (.star :: ts) cs
  | _ + 1, .anyChar :: _, [] => false
  | fuel + 1, .anyChar :: ts, _ :: cs => tokMatch fuel ts cs
  | _ + 1, .lit _ :: _, [] => false
  | fuel + 1, .lit p :: ts, c :: cs => p == c && tokMatch fuel ts cs
  | _ + 1, .cls _ _ :: _, [] => false
  | fuel + 1, .cls neg items :: ts, c :: cs =>
      (if neg then !(charInItems items c) else charInItems items c) &&
        tokMatch fuel ts cs

/-- `fnmatch.fnmatch(name, pat)` (POSIX: no case folding). -/
def fnmatch (name pat : String) : Bool :=
  let toks := compilePat (pat.data.length + 1) pat.data
  tokMatch ((toks.length + name.data.length) * 2 + 1) toks name.data

/-- `_should_exclude` (`scanner.py`; imported by `reconciler.py` and the
tests under the name `should_exclude`): does `name` match any exclude
pattern. -/
def shouldExclude (name : String) (patterns : List String) : Bool :=
  patterns.any (fun p => fnmatch name p)

/-- `Path(rel_path).parts`: split on `/`, dropping empty and `.`
components. -/
def relParts (relPath : String) : List String :=
  (splitOnChar '/' relPath).filter (fun c => !(c == "") && !(c == "."))

/-! ### The reconciler (`reconciler.py`) -/

/-- The state threaded through a run: the manifest, the parity store and the
accumulating `RunStats`. -/
structure RState where
  m : Manifest
  store : ParityStore
  stats : RunStats
deriving Repr

/-- `config.data_root / data_root / rel_path` as a path string. -/
def absPathOf (cfg : Config) (dataRoot relPath : String) : String :=
  cfg.dataRootPath ++ "/" ++ dataRoot ++ "/" ++ relPath

/-- `_safe_delete_parity`: delete parity for a hash only if at most one
manifest entry references it. -/
def safeDeleteParity (cfg : Config) (m : Manifest) (contentHash : String)
    (st : ParityStore) : ParityStore :=
  if (m.getFilesByHash contentHash).length ≤ 1 then
    deleteParity cfg contentHash st
  else st

/-- `_delete_file_and_parity`: conditionally delete the parity (manifest
consulted before the row disappears), then delete the row, then count. -/
def deleteFileAndParity (cfg : Config) (s : RState) (rcd : FileRecord) :
    RState :=
  { m := s.m.deleteFile rcd.id,
    store := safeDeleteParity cfg s.m rcd.contentHash s.store,
    stats := s.stats.incDeleted }

/-- `_try_match_move`: among records with this hash whose key was not seen
on disk, prefer same-data_root candidates (stable, as Python's `sort` with a
boolean key), update the first one's path and mtime. -/
def tryMatchMove (_cfg : Config) (m : Manifest) (now : Nat) (fi : FileInfo)
    (contentHash : String) (seen : List (String × String)) :
    Option (String × Manifest) :=
  let candidates := m.getFilesByHash contentHash
  let disappeared := candidates.filter
    (fun c => !(seen.contains (c.dataRoot, c.relPath)))
  if disappeared.isEmpty then none
  else
    let sorted := disappeared.filter (fun c => c.dataRoot == fi.dataRoot) ++
                  disappeared.filter (fun c => !(c.dataRoot == fi.dataRoot))
    match sorted with
    | [] => none
    | best :: _ =>
        let oldPath := best.dataRoot ++ "/" ++ best.relPath
        let m1 := m.updatePath now best.id fi.relPath fi.dataRoot
        some (oldPath, m1.updateMtime now best.id fi.mtimeNs)

/-- Phase 2 body (`reconciler.py` lines 75–123) for one `needs_hash`
entry. -/
def phase2Step (cfg : Config) (w : World) (now : Nat) (verifyOnly : Bool)
    (seen : List (String × String)) (s : RState) (fi : FileInfo) : RState :=
  match w.hashOf fi.absPath with
  | none =>
      { s with stats := s.stats.addError ("hash error: " ++ fi.absPath) }
  | some contentHash =>
    match s.m.getFile fi.dataRoot fi.relPath with
    | some existing =>
        if existing.contentHash == contentHash then
          { s with m := s.m.updateMtime now existing.id fi.mtimeNs }
        else if verifyOnly then s
        else
          let par2Name := cfg.par2NameForHash contentHash
          let res := createParity cfg w fi.absPath contentHash s.store
          if res.2 then
            let store2 := safeDeleteParity cfg s.m existing.contentHash res.1
            let m1 := s.m.upsertFile now fi.dataRoot fi.relPath fi.size
              fi.mtimeNs contentHash par2Name .ok
            { m := m1, store := store2, stats := s.stats.incCreated }
          else
            { s with
              store := res.1,
              stats := s.stats.addError ("parity create failed: " ++ fi.absPath) }
    | none =>
        match tryMatchMove cfg s.m now fi contentHash seen with
        | some (_oldPath, m1) =>
            { s with m := m1, stats := s.stats.incMoved }
        | none =>
          if verifyOnly then s
          else
            let par2Name := cfg.par2NameForHash contentHash
            let res := createParity cfg w fi.absPath contentHash s.store
            if res.2 then
              let m1 := s.m.upsertFile now fi.dataRoot fi.relPath fi.size
                fi.mtimeNs contentHash par2Name .ok
              { m := m1, store := res.1, stats := s.stats.incCreated }
            else
              { s with
                store := res.1,
                stats := s.stats.addError ("parity create failed: " ++ fi.absPath) }

/-- `_handle_missing_parity`. -/
def handleMissingParity (cfg : Config) (w : World) (now : Nat)
    (s : RState) (fi : FileInfo) (rcd : FileRecord) : RState :=
  match w.hashOf fi.absPath with
  | none =>
      { s with
        stats := s.stats.addError
                   ("hash error during parity re-create: " ++ fi.absPath) }
  | some contentHash =>
    if contentHash == rcd.contentHash then
      let res := createParity cfg w fi.absPath contentHash s.store
      if res.2 then
        { m := s.m.markVerified now rcd.id, store := res.1,
          stats := s.stats.incRecreated }
      else
        { s with
          store := res.1,
          stats := s.stats.addError ("parity re-create failed: " ++ fi.absPath) }
    else
      let par2Name := cfg.par2NameForHash contentHash
      let res := createParity cfg w fi.absPath contentHash s.store
      if res.2 then
        let store2 := safeDeleteParity cfg s.m rcd.contentHash res.1
        let m1 := s.m.upsertFile now fi.dataRoot fi.relPath fi.size
          fi.mtimeNs contentHash par2Name .ok
        { m := m1, store := store2, stats := s.stats.incRecreated }
      else
        { s with
          store := res.1,
          stats := s.stats.addError
                     ("parity create failed (sneaky mod): " ++ fi.absPath) }

/-- Phase 3 body (`reconciler.py` lines 133–150) for one sampled unchanged
pair. -/
def phase3Step (cfg : Config) (w : World) (now : Nat) (verifyOnly : Bool)
    (s : RState) (p : FileInfo × FileRecord) : RState :=
  let fi := p.1
  let rcd := p.2
  let result := verifyParity cfg w fi.absPath rcd.contentHash s.store
  let s1 := { s with stats := s.stats.incVerified }
  match result with
  | .ok => { s1 with m := s1.m.markVerified now rcd.id }
  | .damaged =>
      { s1 with
        m := s1.m.updateStatus now rcd.id .damaged,
        stats := s1.stats.incDamaged }
  | .missingParity =>
      if verifyOnly then
        { s1 with
          stats := s1.stats.addError ("missing parity: " ++ fi.absPath) }
      else handleMissingParity cfg w now s1 fi rcd
  | .error =>
      { s1 with
        stats := s1.stats.addError ("verify error: " ++ fi.absPath) }

/-- `_exceeds_max_file_size`: a stat failure counts as not exceeding;
`max_file_size = 0` means unlimited. -/
def exceedsMaxFileSize (cfg : Config) (size : Option Nat) : Bool :=
  match size with
  | none => false
  | some s => !(cfg.maxFileSize == 0) && decide (cfg.maxFileSize < s)

/-- Phase 4 body (`reconciler.py` lines 156–180) for one manifest row. -/
def phase4Step (cfg : Config) (w : World) (now : Nat)
    (seen : List (String × String)) (s : RState) (rcd : FileRecord) :
    RState :=
  if seen.contains (rcd.dataRoot, rcd.relPath) then s
  else
    let absPath := absPathOf cfg rcd.dataRoot rcd.relPath
    if w.existsAt absPath then
      if shouldExclude rcd.dataRoot cfg.excludePatterns ||
         (relParts rcd.relPath).any
           (fun part => shouldExclude part cfg.excludePatterns) then
        deleteFileAndParity cfg s rcd
      else if exceedsMaxFileSize cfg (w.sizeAt absPath) then
        deleteFileAndParity cfg s rcd
      else
        { s with
          m := s.m.updateStatus now rcd.id .truncated,
          stats := s.stats.incTruncated }
    else
      deleteFileAndParity cfg s rcd

/-- Lexicographic character-list comparison (Python string `<=`). -/
def charsLe : List Char → List Char → Bool
  | [], _ => true
  | _ :: _, [] => false
  | a :: as, b :: bs =>
      if a.toNat < b.toNat then true
      else if b.toNat < a.toNat then false
      else charsLe as bs

def strLe (a b : String) : Bool := charsLe a.data b.data

/-- Directory-then-name order of the nested `sorted(...)` walks in
`_cleanup_orphan_parity`. -/
def pfileLe (a b : PFile) : Bool :=
  if a.dir == b.dir then strLe a.name b.name else strLe a.dir b.dir

def insertSorted (x : PFile) : List PFile → List PFile
  | [] => [x]
  | y :: ys => if pfileLe x y then x :: y :: ys else y :: insertSorted x ys

def sortPFiles : List PFile → List PFile
  | [] => []
  | x :: xs => insertSorted x (sortPFiles xs)

/-- One candidate of the phase-5 orphan sweep: only base `.par2` files
(no `.vol` in the name); reconstruct a pseudo-hash from the stem padded with
zeros and delete through `delete_parity`. -/
def orphanStep (cfg : Config) (s : RState) (f : PFile) : RState :=
  if strEndsWith f.name ".par2" && !(listContainsSub ".vol".data f.name.data)
  then
    if s.m.hasPar2Name f.name then s
    else
      let stem := strReplace f.name ".par2" ""
      let pseudoHash := ljust stem 64 '0'
      { s with
        store := deleteParity cfg pseudoHash s.store,
        stats := s.stats.incOrphan }
  else s

/-- `_cleanup_orphan_parity`: walk the parity files in sorted order. -/
def cleanupOrphanParity (cfg : Config) (s : RState) : RState :=
  (sortPFiles s.store.files).foldl (orphanStep cfg) s

/-- Phase 1 (`reconciler.py` lines 57–71): split the scan into the
`unchanged` pairs and the `needs_hash` list, preserving scan order. -/
def classify (m : Manifest) :
    List FileInfo → List (FileInfo × FileRecord) × List FileInfo
  | [] => ([], [])
  | fi :: rest =>
    let res := classify m rest
    match m.getFile fi.dataRoot fi.relPath with
    | some existing =>
        if existing.mtimeNs == fi.mtimeNs && existing.fileSize == fi.size then
          ((fi, existing) :: res.1, res.2)
        else (res.1, fi :: res.2)
    | none => (res.1, fi :: res.2)

/-- `reconcile`: the five-phase pipeline.  `RunStats` starts from zero as in
the source; phases 4 and 5 are skipped under `verify_only`; phase 4 iterates
a snapshot of the manifest rows taken after phase 3. -/
def reconcile (cfg : Config) (w : World) (now : Nat) (m0 : Manifest)
    (store0 : ParityStore) (scanned : List FileInfo) (verifyOnly : Bool) :
    RState :=
  let seen := scanned.map (fun fi => (fi.dataRoot, fi.relPath))
  let cls := classify m0 scanned
  let unchanged := cls.1
  let stats0 := { RunStats.init with filesScanned := scanned.length }
  let s1 : RState := { m := m0, store := store0, stats := stats0 }
  let s2 := cls.2.foldl (phase2Step cfg w now verifyOnly seen) s1
  let toVerify :=
    if unchanged.isEmpty then []
    else if cfg.verifyPercent < 100 then
      w.sample unchanged
        (max 1 (unchanged.length * cfg.verifyPercent / 100))
    else unchanged
  let s3 := toVerify.foldl (phase3Step cfg w now verifyOnly) s2
  let s4 :=
    if verifyOnly then s3
    else s3.m.files.foldl (phase4Step cfg w now seen) s3
  if verifyOnly then s4 else cleanupOrphanParity cfg s4

/-! ### The CLI driver (`main.py`) -/

/-- The exit decision of `_run_scan` (`main.py` lines 32–39): this run's
counters decide the exit status. -/
def scanExitCode (verifyOnly : Bool) (stats : RunStats) : Nat :=
  if stats.filesDamaged > 0 ∨ (verifyOnly = false ∧ stats.filesTruncated > 0)
  then 1 else 0

/-- `_run_scan`: open a run, reconcile, close the run, compute the exit
status.  (Log and webhook writers are external observers and are not
modelled.) -/
def runScan (cfg : Config) (w : World) (now : Nat) (m0 : Manifest)
    (store0 : ParityStore) (scanned : List FileInfo) (verifyOnly : Bool) :
    RState × Nat :=
  let started := m0.startRun now
  let r := reconcile cfg w now started.2 store0 scanned verifyOnly
  ({ r with m := r.m.finishRun now started.1 r.stats },
   scanExitCode verifyOnly r.stats)

/-- One iteration of the `cmd_repair` loop (`main.py` lines 63–106). -/
def repairStep (cfg : Config) (w : World) (now : Nat) (s : RState)
    (rcd : FileRecord) : RState :=
  let absPath := absPathOf cfg rcd.dataRoot rcd.relPath
  if !(w.existsAt absPath) then
    { s with stats := s.stats.addError ("not found: " ++ absPath) }
  else
    match w.hashOf absPath with
    | none =>
        { s with stats := s.stats.addError ("hash error: " ++ absPath) }
    | some currentHash =>
      if currentHash == rcd.contentHash then
        let otherRefs := s.m.getFilesByHash rcd.contentHash
        let store1 :=
          if otherRefs.length ≤ 1 then deleteParity cfg rcd.contentHash s.store
          else s.store
        let res := createParity cfg w absPath rcd.contentHash store1
        if res.2 then
          { s with
            store := res.1,
            m := (s.m.updateStatus now rcd.id .ok).markVerified now rcd.id }
        else
          { s with
            store := res.1,
            stats := s.stats.addError ("parity re-create failed: " ++ absPath) }
      else
        if repairFile cfg w absPath rcd.contentHash s.store then
          let s1 := { s with stats := s.stats.incRepaired }
          match verifyParity cfg w absPath rcd.contentHash s1.store with
          | .ok =>
              { s1 with m := (s1.m.updateStatus now rcd.id
                  .ok).markVerified now rcd.id }
          | _ => { s1 with m := s1.m.updateStatus now rcd.id .damaged }
        else
          { s with stats := s.stats.addError ("repair failed: " ++ absPath) }

/-- `cmd_repair`: when no record has status damaged or repaired, print and
return 0 before opening a run; otherwise open a run, repair each candidate,
close the run, and exit 0 iff no errors accumulated. -/
def cmdRepair (cfg : Config) (w : World) (now : Nat) (m0 : Manifest)
    (store0 : ParityStore) : RState × Nat :=
  let damaged := m0.getFilesByStatus [.damaged, .repaired]
  if damaged.isEmpty then
    ({ m := m0, store := store0, stats := RunStats.init }, 0)
  else
    let started := m0.startRun now
    let s1 : RState :=
      { m := started.2, store := store0, stats := RunStats.init }
    let s2 := damaged.foldl (repairStep cfg w now) s1
    ({ s2 with m := s2.m.finishRun now started.1 s2.stats },
     if s2.stats.errors.isEmpty then 0 else 1)

/-! ### Concrete fixtures used by witnesses and counterexamples -/

/-- A configuration with the tests' settings: no exclusions, no size
bounds, full verification sampling. -/
def cfgA : Config :=
  { dataRootPath := "/data", par2Redundancy := 10, par2Timeout := 3600,
    minFileSize := 0, maxFileSize := 0, verifyPercent := 100,
    excludePatterns := [] }

def hashA : String := "aaaa"

def hashB : String := "bbbb"

def recA : FileRecord :=
  { id := 1, relPath := "img.jpg", dataRoot := "photos", fileSize := 100,
    mtimeNs := 1000, contentHash := hashA, par2Name := "aaaa.par2",
    status := .ok, createdAt := 0, updatedAt := 0, verifiedAt := none }

def manA : Manifest :=
  { files := [recA], nextId := 2, runs := [], nextRunId := 1 }

def fiA : FileInfo :=
  { absPath := "/data/photos/img.jpg", dataRoot := "photos",
    relPath := "img.jpg", size := 100, mtimeNs := 1000 }

def storeA : ParityStore :=
  { files := [{ dir := "aa", name := "aaaa.par2" }], events := [],
    tmpLeft := 0 }

/-- A world where hashing always yields `hashA`, verification exits 1
(`damaged`), repair and creation succeed, and every path exists. -/
def wC1 : World :=
  { hashOf := fun _ => some hashA,
    verifyExit := fun _ _ => .exited 1,
    repairExit := fun _ _ => .exited 0,
    encFor := fun _ _ => .exited 0 ["aaaa.par2"],
    existsAt := fun _ => true,
    sizeAt := fun _ => some 100,
    sample := fun l _ => l }

/-! ### C1 -/

/-- Claim C1 (code bug): the spec's phase-3 hash-check fallback is absent
from `reconciler.py`.  At an unchanged file whose verify result is
`damaged` but whose current content hash equals the manifest hash (the
documented PAR2 filename-mismatch false positive, reproduced by
`TestDamagedHashFallback` in `tests/test_reconciler.py`), the code
increments `files_damaged` and sets the record's status to `damaged`
without consulting the hash, so the scan exits 1 — where the spec (and the
repository's own tests) require the record to be marked verified with
`files_damaged = 0`. -/
theorem C1_damaged_without_hash_fallback :
    wC1.hashOf fiA.absPath = some recA.contentHash ∧
    (reconcile cfgA wC1 5 manA storeA [fiA] false).stats.filesDamaged = 1 ∧
    ((reconcile cfgA wC1 5 manA storeA [fiA] false).m.getFile "photos"
        "img.jpg").map (fun r => r.status) = some FStatus.damaged ∧
    scanExitCode false (reconcile cfgA wC1 5 manA storeA [fiA] false).stats
      = 1 := by
  refine ⟨rfl, ?_, ?_, ?_⟩ <;> decide

/-! ### C9 -/

/-- Claim C9: when no record has status `damaged` or `repaired`,
`cmd_repair` returns exit 0 before starting a run: the manifest (both
tables) and the parity store are returned unchanged. -/
theorem C9_repair_without_damaged_is_noop (cfg : Config) (w : World)
    (now : Nat) (m0 : Manifest) (store0 : ParityStore)
    (h : m0.getFilesByStatus [.damaged, .repaired] = []) :
    cmdRepair cfg w now m0 store0 =
      ({ m := m0, store := store0, stats := RunStats.init }, 0) := by
  unfold cmdRepair
  rw [h]
  rfl

theorem C9_repair_without_damaged_is_noop_witness :
    manA.getFilesByStatus [.damaged, .repaired] = [] ∧
    cmdRepair cfgA wC1 5 manA storeA =
      ({ m := manA, store := storeA, stats := RunStats.init }, 0) :=
  ⟨by decide, C9_repair_without_damaged_is_noop cfgA wC1 5 manA storeA
    (by decide)⟩

/-! ### C10 -/

theorem forall2_map_self {α : Type} {R : α → α → Prop} {g : α → α}
    (l : List α) (hg : ∀ a, a ∈ l → R a (g a)) :
    List.Forall₂ R l (l.map g) := by
  induction l with
  | nil => simp
  | cons x xs ih =>
      exact List.Forall₂.cons (hg x (by simp))
        (ih (fun a ha => hg a (by simp [ha])))

/-- The shape shared by every row-mutating manifest operation: ids and
created_at survive, touched rows get updated_at = now, untouched rows are
returned verbatim. -/
def idCreatedKept (now : Nat) (touched : FileRecord → Bool)
    (a b : FileRecord) : Prop :=
  b.id = a.id ∧ b.createdAt = a.createdAt ∧
  (touched a = true → b.updatedAt = now) ∧
  (touched a = false → b = a)

/-- Claim C10: `upsert_file` on a conflicting (data_root, rel_path) key,
`update_path`, `update_mtime`, `update_status` and `mark_verified` all
relate the old and new `files` rows pointwise: the id and created_at of
every existing record are preserved, rows matching the operation's target
get updated_at = now, and all other rows are untouched — so a modify or
move never changes a record's surrogate id or creation timestamp. -/
theorem C10_mutations_keep_id_and_created_at (m : Manifest)
    (now fileId fileSize mtimeNs : Nat) (dataRoot relPath ch p2 : String)
    (st : FStatus) :
    (m.files.any (fun r => r.dataRoot == dataRoot && r.relPath == relPath)
        = true →
      List.Forall₂
        (idCreatedKept now
          (fun r => r.dataRoot == dataRoot && r.relPath == relPath))
        m.files
        (m.upsertFile now dataRoot relPath fileSize mtimeNs ch p2 st).files) ∧
    List.Forall₂ (idCreatedKept now (fun r => r.id == fileId)) m.files
      (m.updatePath now fileId relPath dataRoot).files ∧
    List.Forall₂ (idCreatedKept now (fun r => r.id == fileId)) m.files
      (m.updateMtime now fileId mtimeNs).files ∧
    List.Forall₂ (idCreatedKept now (fun r => r.id == fileId)) m.files
      (m.updateStatus now fileId st).files ∧
    List.Forall₂ (idCreatedKept now (fun r => r.id == fileId)) m.files
      (m.markVerified now fileId).files := by
  refine ⟨?_, ?_, ?_, ?_, ?_⟩
  · intro hany
    unfold Manifest.upsertFile
    rw [if_pos hany]
    exact forall2_map_self _ (fun a _ => by
      unfold idCreatedKept
      by_cases hk : (a.dataRoot == dataRoot && a.relPath == relPath) = true <;>
        simp [hk])
  · unfold Manifest.updatePath
    exact forall2_map_self _ (fun a _ => by
      unfold idCreatedKept
      by_cases hk : (a.id == fileId) = true <;> simp [hk])
  · unfold Manifest.updateMtime
    exact forall2_map_self _ (fun a _ => by
      unfold idCreatedKept
      by_cases hk : (a.id == fileId) = true <;> simp [hk])
  · unfold Manifest.updateStatus
    exact forall2_map_self _ (fun a _ => by
      unfold idCreatedKept
      by_cases hk : (a.id == fileId) = true <;> simp [hk])
  · unfold Manifest.markVerified
    exact forall2_map_self _ (fun a _ => by
      unfold idCreatedKept
      by_cases hk : (a.id == fileId) = true <;> simp [hk])

theorem C10_mutations_keep_id_and_created_at_witness :
    manA.files.any
        (fun r => r.dataRoot == "photos" && r.relPath == "img.jpg") = true ∧
    List.Forall₂
      (idCreatedKept 7
        (fun r => r.dataRoot == "photos" && r.relPath == "img.jpg"))
      manA.files
      (manA.upsertFile 7 "photos" "img.jpg" 200 2000 hashB "bbbb.par2"
        .ok).files :=
  ⟨by decide,
   (C10_mutations_keep_id_and_created_at manA 7 1 200 2000 "photos"
      "img.jpg" hashB "bbbb.par2" .ok).1 (by decide)⟩

/-! ### C6 -/

theorem hasBase_deleteParity (cfg : Config) (h : String) (st : ParityStore) :
    (deleteParity cfg h st).hasBase cfg h = false := by
  unfold deleteParity ParityStore.hasBase
  simp only [List.any_eq_false]
  intro f hf
  simp only [List.mem_filter] at hf
  have h2 := hf.2
  simp only [Bool.not_eq_true', Bool.and_eq_false_iff,
    Bool.or_eq_false_iff] at h2
  simp only [Bool.and_eq_true, beq_iff_eq]
  rintro ⟨hd, hn⟩
  rcases h2 with hd' | ⟨hn', _⟩
  · simp [hd] at hd'
  · simp [hn] at hn'

/-- Claim C6: `_safe_delete_parity` removes the base artifact for a hash iff
at most one manifest record references that hash at call time; hence the
reconciler's deletion path (`_delete_file_and_parity`, which consults the
manifest before removing the row) leaves the shared artifact intact while
at least two records reference the hash, and removes it when deleting the
last referencing record. -/
theorem C6_shared_parity_deleted_only_with_last_ref (cfg : Config)
    (m : Manifest) (h : String) (st : ParityStore) (stats : RunStats) :
    (st.hasBase cfg h = true →
      ((safeDeleteParity cfg m h st).hasBase cfg h = true ↔
        1 < (m.getFilesByHash h).length)) ∧
    (∀ rcd : FileRecord, rcd.contentHash = h →
      2 ≤ (m.getFilesByHash h).length →
      (deleteFileAndParity cfg { m := m, store := st, stats := stats }
          rcd).store = st) ∧
    (∀ rcd : FileRecord, rcd.contentHash = h →
      (m.getFilesByHash h).length = 1 →
      (deleteFileAndParity cfg { m := m, store := st, stats := stats }
          rcd).store.hasBase cfg h = false) := by
  refine ⟨?_, ?_, ?_⟩
  · intro hbase
    unfold safeDeleteParity
    by_cases hlen : (m.getFilesByHash h).length ≤ 1
    · rw [if_pos hlen]
      simp [hasBase_deleteParity]
      omega
    · rw [if_neg hlen]
      simp [hbase]
      omega
  · intro rcd hh hlen
    unfold deleteFileAndParity safeDeleteParity
    simp only [hh]
    rw [if_neg (by omega)]
  · intro rcd hh hlen
    unfold deleteFileAndParity safeDeleteParity
    simp only [hh]
    rw [if_pos (by omega)]
    exact hasBase_deleteParity cfg h st

/-- A second record of the same content under another path (hash sharing). -/
def recA2 : FileRecord :=
  { recA with id := 2, relPath := "copy.jpg", dataRoot := "docs" }

def manShared : Manifest :=
  { files := [recA, recA2], nextId := 3, runs := [], nextRunId := 1 }

theorem C6_shared_parity_deleted_only_with_last_ref_witness :
    storeA.hasBase cfgA hashA = true ∧
    (((safeDeleteParity cfgA manShared hashA storeA).hasBase cfgA hashA
        = true) ↔ 1 < (manShared.getFilesByHash hashA).length) ∧
    (deleteFileAndParity cfgA
      { m := manShared, store := storeA, stats := RunStats.init }
      recA).store = storeA ∧
    (deleteFileAndParity cfgA
      { m := manA, store := storeA, stats := RunStats.init }
      recA).store.hasBase cfgA hashA = false :=
  ⟨by decide,
   (C6_shared_parity_deleted_only_with_last_ref cfgA manShared hashA storeA
      RunStats.init).1 (by decide),
   (C6_shared_parity_deleted_only_with_last_ref cfgA manShared hashA storeA
      RunStats.init).2.1 recA rfl (by decide),
   (C6_shared_parity_deleted_only_with_last_ref cfgA manA hashA storeA
      RunStats.init).2.2 recA rfl (by decide)⟩

/-! ### C7 -/

/-- Claim C7: `create_parity` succeeds without running the encoder when the
base artifact already exists (state untouched apart from the call trace);
with the base absent it runs the encoder once, and on exit 0 moves every
produced file into `by_hash/H[:2]/` and succeeds, while on a non-zero exit
or timeout it fails with the final directory unchanged; the temporary
directory count is restored on every path. -/
theorem C7_create_parity_crash_safe (cfg : Config) (w : World)
    (src h : String) (st : ParityStore) :
    (st.hasBase cfg h = true →
      createParity cfg w src h st =
        ({ st with events := st.events ++ [.createCall h true] }, true)) ∧
    (st.hasBase cfg h = false →
      ∀ produced, w.encFor src h = .exited 0 produced →
        (createParity cfg w src h st).2 = true ∧
        (createParity cfg w src h st).1.files =
          st.files ++ produced.map
            (fun n => { dir := dirOfHash h, name := n }) ∧
        (createParity cfg w src h st).1.tmpLeft = st.tmpLeft) ∧
    (st.hasBase cfg h = false →
      ∀ code produced, w.encFor src h = .exited code produced → code ≠ 0 →
        (createParity cfg w src h st).2 = false ∧
        (createParity cfg w src h st).1.files = st.files ∧
        (createParity cfg w src h st).1.tmpLeft = st.tmpLeft) ∧
    (st.hasBase cfg h = false →
      w.encFor src h = .timedOut →
        (createParity cfg w src h st).2 = false ∧
        (createParity cfg w src h st).1.files = st.files ∧
        (createParity cfg w src h st).1.tmpLeft = st.tmpLeft) := by
  refine ⟨?_, ?_, ?_, ?_⟩
  · intro hbase
    unfold createParity
    rw [if_pos hbase]
  · intro hbase produced henc
    unfold createParity
    rw [if_neg (by simp [hbase]), henc]
    simp
  · intro hbase code produced henc hcode
    unfold createParity
    rw [if_neg (by simp [hbase]), henc]
    split <;> simp_all
  · intro hbase henc
    unfold createParity
    rw [if_neg (by simp [hbase]), henc]
    simp

def storeEmpty : ParityStore := { files := [], events := [], tmpLeft := 0 }

def wEncFail : World := { wC1 with encFor := fun _ _ => .exited 1 [] }

def wEncTimeout : World := { wC1 with encFor := fun _ _ => .timedOut }

theorem C7_create_parity_crash_safe_witness :
    createParity cfgA wC1 "/data/photos/img.jpg" hashA storeA =
      ({ storeA with
         events := storeA.events ++ [.createCall hashA true] }, true) ∧
    ((createParity cfgA wC1 "/data/photos/img.jpg" hashA storeEmpty).2
        = true ∧
      (createParity cfgA wC1 "/data/photos/img.jpg" hashA
          storeEmpty).1.files =
        storeEmpty.files ++ ["aaaa.par2"].map
          (fun n => { dir := dirOfHash hashA, name := n }) ∧
      (createParity cfgA wC1 "/data/photos/img.jpg" hashA
          storeEmpty).1.tmpLeft = storeEmpty.tmpLeft) ∧
    ((createParity cfgA wEncFail "/data/photos/img.jpg" hashA storeEmpty).2
        = false ∧
      (createParity cfgA wEncFail "/data/photos/img.jpg" hashA
          storeEmpty).1.files = storeEmpty.files ∧
      (createParity cfgA wEncFail "/data/photos/img.jpg" hashA
          storeEmpty).1.tmpLeft = storeEmpty.tmpLeft) ∧
    ((createParity cfgA wEncTimeout "/data/photos/img.jpg" hashA
          storeEmpty).2 = false ∧
      (createParity cfgA wEncTimeout "/data/photos/img.jpg" hashA
          storeEmpty).1.files = storeEmpty.files ∧
      (createParity cfgA wEncTimeout "/data/photos/img.jpg" hashA
          storeEmpty).1.tmpLeft = storeEmpty.tmpLeft) :=
  ⟨(C7_create_parity_crash_safe cfgA wC1 "/data/photos/img.jpg" hashA
      storeA).1 (by decide),
   (C7_create_parity_crash_safe cfgA wC1 "/data/photos/img.jpg" hashA
      storeEmpty).2.1 (by decide) ["aaaa.par2"] rfl,
   (C7_create_parity_crash_safe cfgA wEncFail "/data/photos/img.jpg" hashA
      storeEmpty).2.2.1 (by decide) 1 [] rfl (by decide),
   (C7_create_parity_crash_safe cfgA wEncTimeout "/data/photos/img.jpg"
      hashA storeEmpty).2.2.2 (by decide) rfl⟩

/-! ### C2 -/

/-- Claim C2: in phase 4, a record whose key was not seen on disk but whose
expected path exists is deleted (counted in `files_deleted`, with its parity
removed exactly when no other record shares the hash) when the data_root
label or any `rel_path` component matches an exclude pattern or the file's
current size exceeds a non-zero `max_file_size`; otherwise its status is
set to `truncated`, `files_truncated` is incremented, and both the record
and the parity store are preserved. -/
theorem C2_phase4_excluded_deleted_else_truncated (cfg : Config) (w : World)
    (now : Nat) (seen : List (String × String)) (s : RState)
    (rcd : FileRecord)
    (hseen : seen.contains (rcd.dataRoot, rcd.relPath) = false)
    (hex : w.existsAt (absPathOf cfg rcd.dataRoot rcd.relPath) = true) :
    ((shouldExclude rcd.dataRoot cfg.excludePatterns = true ∨
      (relParts rcd.relPath).any
        (fun part => shouldExclude part cfg.excludePatterns) = true ∨
      exceedsMaxFileSize cfg
        (w.sizeAt (absPathOf cfg rcd.dataRoot rcd.relPath)) = true) →
      (phase4Step cfg w now seen s rcd).stats.filesDeleted =
          s.stats.filesDeleted + 1 ∧
      (phase4Step cfg w now seen s rcd).m.files =
          s.m.files.filter (fun r => !(r.id == rcd.id)) ∧
      (2 ≤ (s.m.getFilesByHash rcd.contentHash).length →
        (phase4Step cfg w now seen s rcd).store = s.store) ∧
      ((s.m.getFilesByHash rcd.contentHash).length ≤ 1 →
        (phase4Step cfg w now seen s rcd).store =
          deleteParity cfg rcd.contentHash s.store)) ∧
    ((shouldExclude rcd.dataRoot cfg.excludePatterns = false ∧
      (relParts rcd.relPath).any
        (fun part => shouldExclude part cfg.excludePatterns) = false ∧
      exceedsMaxFileSize cfg
        (w.sizeAt (absPathOf cfg rcd.dataRoot rcd.relPath)) = false) →
      (phase4Step cfg w now seen s rcd).m =
          s.m.updateStatus now rcd.id .truncated ∧
      (phase4Step cfg w now seen s rcd).stats.filesTruncated =
          s.stats.filesTruncated + 1 ∧
      (phase4Step cfg w now seen s rcd).store = s.store ∧
      (phase4Step cfg w now seen s rcd).stats.filesDeleted =
          s.stats.filesDeleted) := by
  constructor
  · intro hdel
    have hstep : phase4Step cfg w now seen s rcd =
        deleteFileAndParity cfg s rcd := by
      unfold phase4Step
      rw [if_neg (by simpa using hseen), if_pos hex]
      rcases hdel with h1 | h2 | h3
      · rw [if_pos (by simp [h1])]
      · rw [if_pos (by simp [h2])]
      · by_cases hx : (shouldExclude rcd.dataRoot cfg.excludePatterns ||
          (relParts rcd.relPath).any
            (fun part => shouldExclude part cfg.excludePatterns)) = true
        · rw [if_pos hx]
        · rw [if_neg hx, if_pos h3]
    rw [hstep]
    unfold deleteFileAndParity safeDeleteParity Manifest.deleteFile
    refine ⟨rfl, rfl, ?_, ?_⟩
    · intro hlen; rw [if_neg (by omega)]
    · intro hlen; rw [if_pos (by omega)]
  · rintro ⟨h1, h2, h3⟩
    unfold phase4Step
    rw [if_neg (by simpa using hseen), if_pos hex,
        if_neg (by simp [h1, h2]), if_neg (by simp [h3])]
    exact ⟨rfl, rfl, rfl, rfl⟩

/-- Config with an exclude pattern, as in
`test_excluded_directory_cleaned_up`. -/
def cfgEx : Config := { cfgA with excludePatterns := ["#recycle"] }

/-- Record inside a newly excluded directory. -/
def recR : FileRecord := { recA with id := 3, relPath := "#recycle/old.jpg" }

theorem C2_phase4_excluded_deleted_else_truncated_witness :
    ((phase4Step cfgEx wC1 9 []
        { m := manA, store := storeA, stats := RunStats.init }
        recR).stats.filesDeleted = RunStats.init.filesDeleted + 1 ∧
      (phase4Step cfgEx wC1 9 []
        { m := manA, store := storeA, stats := RunStats.init }
        recR).store = deleteParity cfgEx recR.contentHash storeA) ∧
    ((phase4Step cfgA wC1 9 []
        { m := manA, store := storeA, stats := RunStats.init }
        recA).stats.filesTruncated = RunStats.init.filesTruncated + 1 ∧
      (phase4Step cfgA wC1 9 []
        { m := manA, store := storeA, stats := RunStats.init }
        recA).store = storeA) :=
  ⟨⟨((C2_phase4_excluded_deleted_else_truncated cfgEx wC1 9 []
        { m := manA, store := storeA, stats := RunStats.init } recR
        (by decide) (by decide)).1 (Or.inr (Or.inl (by decide)))).1,
    ((C2_phase4_excluded_deleted_else_truncated cfgEx wC1 9 []
        { m := manA, store := storeA, stats := RunStats.init } recR
        (by decide) (by decide)).1 (Or.inr (Or.inl (by decide)))).2.2.2
      (by decide)⟩,
   ⟨((C2_phase4_excluded_deleted_else_truncated cfgA wC1 9 []
        { m := manA, store := storeA, stats := RunStats.init } recA
        (by decide) (by decide)).2 ⟨by decide, by decide, by decide⟩).2.1,
    ((C2_phase4_excluded_deleted_else_truncated cfgA wC1 9 []
        { m := manA, store := storeA, stats := RunStats.init } recA
        (by decide) (by decide)).2 ⟨by decide, by decide, by decide⟩).2.2.1⟩⟩

/-! ### C5 -/

theorem createParity_events_shape (cfg : Config) (w : World)
    (src h : String) (st : ParityStore) :
    ∃ A, (createParity cfg w src h st).1.events = st.events ++ A ∧
      (∀ h', PEvent.deleteCall h' ∉ A) ∧
      ((createParity cfg w src h st).2 = true →
        PEvent.createCall h true ∈ A) ∧
      ((createParity cfg w src h st).2 = false →
        (createParity cfg w src h st).1.files = st.files) := by
  unfold createParity
  by_cases hbase : st.hasBase cfg h = true
  · rw [if_pos hbase]
    exact ⟨[.createCall h true], by simp, by simp, by simp, by simp⟩
  · rw [if_neg hbase]
    rcases henc : w.encFor src h with ⟨code, produced⟩ | _
    · by_cases hc : code = 0
      · subst hc
        refine ⟨[.encoderRun h, .createCall h true], by simp, by simp,
          by simp, by simp⟩
      · refine ⟨[.encoderRun h, .createCall h false], ?_, by simp, ?_, ?_⟩ <;>
          split <;> simp_all
    · refine ⟨[.encoderRun h, .createCall h false], by simp, by simp,
        by simp, by simp⟩

/-- Claim C5: in the phase-2 modify branch (existing record, different
hash, not verify_only), parity creation for the new hash precedes any
deletion of the old parity.  On creation failure an error is appended and
the manifest row, the counter, and the parity files are all untouched and
no `delete_parity` call happens; on success the row is upserted with the
new size/mtime/hash/par2_name, `files_created` is incremented, and the
event trace shows the successful create strictly before the (refcount-
guarded) deletion of the old hash's parity. -/
theorem C5_modify_creates_before_deleting (cfg : Config) (w : World)
    (now : Nat) (seen : List (String × String)) (s : RState) (fi : FileInfo)
    (existing : FileRecord) (newHash : String)
    (hhash : w.hashOf fi.absPath = some newHash)
    (hget : s.m.getFile fi.dataRoot fi.relPath = some existing)
    (hmod : existing.contentHash ≠ newHash) :
    ((createParity cfg w fi.absPath newHash s.store).2 = false →
      (phase2Step cfg w now false seen s fi).m = s.m ∧
      (phase2Step cfg w now false seen s fi).stats.errors =
        s.stats.errors ++ ["parity create failed: " ++ fi.absPath] ∧
      (phase2Step cfg w now false seen s fi).stats.filesCreated =
        s.stats.filesCreated ∧
      (phase2Step cfg w now false seen s fi).store.files = s.store.files ∧
      (∃ A, (phase2Step cfg w now false seen s fi).store.events =
          s.store.events ++ A ∧ ∀ h', PEvent.deleteCall h' ∉ A)) ∧
    ((createParity cfg w fi.absPath newHash s.store).2 = true →
      (phase2Step cfg w now false seen s fi).m =
        s.m.upsertFile now fi.dataRoot fi.relPath fi.size fi.mtimeNs
          newHash (cfg.par2NameForHash newHash) .ok ∧
      (phase2Step cfg w now false seen s fi).stats.filesCreated =
        s.stats.filesCreated + 1 ∧
      (∃ A, (createParity cfg w fi.absPath newHash s.store).1.events =
          s.store.events ++ A ∧
        PEvent.createCall newHash true ∈ A ∧
        (∀ h', PEvent.deleteCall h' ∉ A) ∧
        (phase2Step cfg w now false seen s fi).store.events =
          s.store.events ++ A ++
            (if (s.m.getFilesByHash existing.contentHash).length ≤ 1 then
              [PEvent.deleteCall existing.contentHash] else []))) := by
  have hbeq : (existing.contentHash == newHash) = false := by
    simp [hmod]
  constructor
  · intro hfail
    obtain ⟨A, hA, hnodel, _, hfiles⟩ :=
      createParity_events_shape cfg w fi.absPath newHash s.store
    simp only [phase2Step, hhash, hget, hbeq, Bool.false_eq_true,
      if_false, hfail]
    exact ⟨by trivial, by simp [RunStats.addError], by trivial,
      hfiles hfail, ⟨A, hA, hnodel⟩⟩
  · intro hok
    obtain ⟨A, hA, hnodel, hcr, _⟩ :=
      createParity_events_shape cfg w fi.absPath newHash s.store
    simp only [phase2Step, hhash, hget, hbeq, Bool.false_eq_true,
      if_false, hok, if_true]
    refine ⟨by trivial, by trivial, A, hA, hcr hok, hnodel, ?_⟩
    unfold safeDeleteParity
    by_cases hlen : (s.m.getFilesByHash existing.contentHash).length ≤ 1
    · rw [if_pos hlen, if_pos hlen]
      simp [deleteParity, hA]
    · rw [if_neg hlen, if_neg hlen]
      simp [hA]

def s0 : RState := { m := manA, store := storeA, stats := RunStats.init }

/-- The modified file: same path as `recA`, new size and mtime. -/
def fiMod : FileInfo := { fiA with mtimeNs := 2000, size := 200 }

def wBfail : World :=
  { wC1 with hashOf := fun _ => some hashB,
             encFor := fun _ _ => .exited 1 [] }

def wBok : World :=
  { wC1 with hashOf := fun _ => some hashB,
             encFor := fun _ _ => .exited 0 ["bbbb.par2"] }

theorem C5_modify_creates_before_deleting_witness :
    ((phase2Step cfgA wBfail 5 false [] s0 fiMod).m = s0.m ∧
      (phase2Step cfgA wBfail 5 false [] s0 fiMod).store.files =
        s0.store.files) ∧
    ((phase2Step cfgA wBok 5 false [] s0 fiMod).m =
        s0.m.upsertFile 5 fiMod.dataRoot fiMod.relPath fiMod.size
          fiMod.mtimeNs hashB (cfgA.par2NameForHash hashB) .ok ∧
      (phase2Step cfgA wBok 5 false [] s0 fiMod).stats.filesCreated =
        s0.stats.filesCreated + 1) :=
  ⟨⟨((C5_modify_creates_before_deleting cfgA wBfail 5 [] s0 fiMod recA
        hashB rfl (by decide) (by decide)).1 (by decide)).1,
    ((C5_modify_creates_before_deleting cfgA wBfail 5 [] s0 fiMod recA
        hashB rfl (by decide) (by decide)).1 (by decide)).2.2.2.1⟩,
   ⟨((C5_modify_creates_before_deleting cfgA wBok 5 [] s0 fiMod recA
        hashB rfl (by decide) (by decide)).2 (by decide)).1,
    ((C5_modify_creates_before_deleting cfgA wBok 5 [] s0 fiMod recA
        hashB rfl (by decide) (by decide)).2 (by decide)).2.1⟩⟩

/-! ### C3 -/

/-- The FileRecord fields a verify-only run may never change. -/
def frameEq (a b : FileRecord) : Prop :=
  b.id = a.id ∧ b.fileSize = a.fileSize ∧ b.contentHash = a.contentHash ∧
  b.par2Name = a.par2Name ∧ b.createdAt = a.createdAt

theorem frameEq_refl (a : FileRecord) : frameEq a a := by
  unfold frameEq; exact ⟨rfl, rfl, rfl, rfl, rfl⟩

theorem frameEq_trans {a b c : FileRecord} (h1 : frameEq a b)
    (h2 : frameEq b c) : frameEq a c := by
  unfold frameEq at h1 h2 ⊢
  exact ⟨h2.1.trans h1.1, h2.2.1.trans h1.2.1, h2.2.2.1.trans h1.2.2.1,
    h2.2.2.2.1.trans h1.2.2.2.1, h2.2.2.2.2.trans h1.2.2.2.2⟩

theorem forall2_frame_refl (l : List FileRecord) :
    List.Forall₂ frameEq l l := by
  induction l with
  | nil => simp
  | cons x xs ih => exact List.Forall₂.cons (frameEq_refl x) ih

theorem forall2_frame_mapg {g : FileRecord → FileRecord}
    (hg : ∀ b, frameEq b (g b)) :
    ∀ {A B : List FileRecord}, List.Forall₂ frameEq A B →
      List.Forall₂ frameEq A (B.map g) := by
  intro A B h
  induction h with
  | nil => simp
  | cons hab _ ih => exact List.Forall₂.cons (frameEq_trans hab (hg _)) ih

/-- What a verify-only run may not change. -/
def verifyFrame (m0 : Manifest) (store0 : ParityStore) (s : RState) : Prop :=
  s.store = store0 ∧ s.m.nextId = m0.nextId ∧ s.m.runs = m0.runs ∧
  s.m.nextRunId = m0.nextRunId ∧ List.Forall₂ frameEq m0.files s.m.files

theorem frame_updateMtime {m0 store0} {s : RState}
    (h : verifyFrame m0 store0 s) (now i mt : Nat) :
    verifyFrame m0 store0 { s with m := s.m.updateMtime now i mt } := by
  refine ⟨h.1, h.2.1, h.2.2.1, h.2.2.2.1, ?_⟩
  unfold Manifest.updateMtime
  exact forall2_frame_mapg (fun b => by
    by_cases hb : (b.id == i) = true <;> simp [hb, frameEq]) h.2.2.2.2

theorem frame_updatePath {m0 store0} {s : RState}
    (h : verifyFrame m0 store0 s) (now : Nat) (i : Nat) (p d : String) :
    verifyFrame m0 store0 { s with m := s.m.updatePath now i p d } := by
  refine ⟨h.1, h.2.1, h.2.2.1, h.2.2.2.1, ?_⟩
  unfold Manifest.updatePath
  exact forall2_frame_mapg (fun b => by
    by_cases hb : (b.id == i) = true <;> simp [hb, frameEq]) h.2.2.2.2

theorem frame_updateStatus {m0 store0} {s : RState}
    (h : verifyFrame m0 store0 s) (now i : Nat) (st : FStatus) :
    verifyFrame m0 store0 { s with m := s.m.updateStatus now i st } := by
  refine ⟨h.1, h.2.1, h.2.2.1, h.2.2.2.1, ?_⟩
  unfold Manifest.updateStatus
  exact forall2_frame_mapg (fun b => by
    by_cases hb : (b.id == i) = true <;> simp [hb, frameEq]) h.2.2.2.2

theorem frame_markVerified {m0 store0} {s : RState}
    (h : verifyFrame m0 store0 s) (now i : Nat) :
    verifyFrame m0 store0 { s with m := s.m.markVerified now i } := by
  refine ⟨h.1, h.2.1, h.2.2.1, h.2.2.2.1, ?_⟩
  unfold Manifest.markVerified
  exact forall2_frame_mapg (fun b => by
    by_cases hb : (b.id == i) = true <;> simp [hb, frameEq]) h.2.2.2.2

theorem tryMatchMove_frame {m0 store0} {s : RState}
    (h : verifyFrame m0 store0 s) (cfg : Config) (now : Nat) (fi : FileInfo)
    (ch : String) (seen : List (String × String)) :
    ∀ p m1, tryMatchMove cfg s.m now fi ch seen = some (p, m1) →
      verifyFrame m0 store0 { s with m := m1 } := by
  intro p m1 hm
  unfold tryMatchMove at hm
  by_cases he : ((s.m.getFilesByHash ch).filter
      (fun c => !(seen.contains (c.dataRoot, c.relPath)))).isEmpty = true
  · rw [if_pos he] at hm; exact absurd hm (by simp)
  · rw [if_neg he] at hm
    rcases hsorted : ((s.m.getFilesByHash ch).filter
        (fun c => !(seen.contains (c.dataRoot, c.relPath)))).filter
          (fun c => c.dataRoot == fi.dataRoot) ++
        ((s.m.getFilesByHash ch).filter
          (fun c => !(seen.contains (c.dataRoot, c.relPath)))).filter
          (fun c => !(c.dataRoot == fi.dataRoot)) with _ | ⟨best, rest⟩
    · rw [hsorted] at hm; exact absurd hm (by simp)
    · rw [hsorted] at hm
      simp only [Option.some_inj, Prod.mk.injEq] at hm
      have hm1 := hm.2
      subst hm1
      exact frame_updateMtime
        (frame_updatePath h now best.id fi.relPath fi.dataRoot)
        now best.id fi.mtimeNs

theorem foldl_inv {σ α : Type} {Inv : σ → Prop} (f : σ → α → σ)
    (hstep : ∀ s x, Inv s → Inv (f s x)) :
    ∀ (l : List α) (s : σ), Inv s → Inv (l.foldl f s) := by
  intro l
  induction l with
  | nil => intro s h; exact h
  | cons x xs ih => intro s h; exact ih _ (hstep s x h)

theorem phase2Step_verifyOnly_frame {m0 store0} (cfg : Config) (w : World)
    (now : Nat) (seen : List (String × String)) :
    ∀ (s : RState) (fi : FileInfo), verifyFrame m0 store0 s →
      verifyFrame m0 store0 (phase2Step cfg w now true seen s fi) := by
  intro s fi h
  unfold phase2Step
  rcases hh : w.hashOf fi.absPath with _ | ch
  · exact h
  · rcases hg : s.m.getFile fi.dataRoot fi.relPath with _ | ex
    · rcases ht : tryMatchMove cfg s.m now fi ch seen with _ | ⟨p, m1⟩
      · simp only [ht]
        exact h
      · have hfr := tryMatchMove_frame h cfg now fi ch seen p m1 ht
        simp only [ht]
        exact hfr
    · by_cases hbeq : (ex.contentHash == ch) = true
      · simp only [hbeq, if_true]
        exact frame_updateMtime h now ex.id fi.mtimeNs
      · simp only [hbeq, Bool.false_eq_true, if_false, if_true]
        exact h

theorem phase3Step_verifyOnly_frame {m0 store0} (cfg : Config) (w : World)
    (now : Nat) :
    ∀ (s : RState) (p : FileInfo × FileRecord), verifyFrame m0 store0 s →
      verifyFrame m0 store0 (phase3Step cfg w now true s p) := by
  intro s p h
  unfold phase3Step
  rcases hv : verifyParity cfg w p.1.absPath p.2.contentHash s.store with
    _ | _ | _ | _
  · simp only [hv]
    exact frame_markVerified h now p.2.id
  · simp only [hv]
    exact frame_updateStatus h now p.2.id .damaged
  · simp only [hv, if_true]
    exact h
  · simp only [hv]
    exact h

/-- Claim C3 (amended): a verify-only reconcile writes nothing to the
parity store (files, events and temp-dir count all unchanged), inserts and
deletes no record and no run row, and for every record preserves id,
file_size, content_hash, par2_name and created_at; the remaining mutable
fields are status, verified_at, updated_at — and, contrary to the original
claim, also mtime_ns (touch branch) and rel_path/data_root (move
detection), which `reconcile` updates even under verify_only. -/
theorem C3_verify_only_frame (cfg : Config) (w : World) (now : Nat)
    (m0 : Manifest) (store0 : ParityStore) (scanned : List FileInfo) :
    (reconcile cfg w now m0 store0 scanned true).store = store0 ∧
    (reconcile cfg w now m0 store0 scanned true).m.nextId = m0.nextId ∧
    (reconcile cfg w now m0 store0 scanned true).m.runs = m0.runs ∧
    (reconcile cfg w now m0 store0 scanned true).m.nextRunId =
      m0.nextRunId ∧
    List.Forall₂ frameEq m0.files
      (reconcile cfg w now m0 store0 scanned true).m.files := by
  have hres : verifyFrame m0 store0
      (reconcile cfg w now m0 store0 scanned true) := by
    unfold reconcile
    simp only [if_true]
    apply foldl_inv (phase3Step cfg w now true)
      (fun s p h => phase3Step_verifyOnly_frame cfg w now s p h)
    apply foldl_inv (phase2Step cfg w now true
      (scanned.map (fun fi => (fi.dataRoot, fi.relPath))))
      (fun s fi h => phase2Step_verifyOnly_frame cfg w now _ s fi h)
    exact ⟨rfl, rfl, rfl, rfl, forall2_frame_refl m0.files⟩
  exact ⟨hres.1, hres.2.1, hres.2.2.1, hres.2.2.2.1, hres.2.2.2.2⟩

/-- `recA`'s file touched: mtime advanced, content unchanged. -/
def fiTouch : FileInfo := { fiA with mtimeNs := 2000 }

/-- `recA`'s content at a fresh path (a rename while the old path is gone
from disk). -/
def fiNewPath : FileInfo :=
  { absPath := "/data/photos/new.jpg", dataRoot := "photos",
    relPath := "new.jpg", size := 100, mtimeNs := 2000 }

/-- Claim C3 counterexample: under verify_only, a touched file still gets
its mtime_ns updated, and a detected move still gets its rel_path updated,
so mtime_ns, rel_path and data_root are not unchanged for every input. -/
theorem C3_counterexample :
    (reconcile cfgA wC1 5 manA storeA [fiTouch] true).m.files.map
        (fun r => r.mtimeNs) ≠
      manA.files.map (fun r => r.mtimeNs) ∧
    (reconcile cfgA wC1 5 manA storeA [fiNewPath] true).m.files.map
        (fun r => r.relPath) ≠
      manA.files.map (fun r => r.relPath) := by
  constructor <;> decide

/-! ### C8 -/



/-- Fields preserved by `mark_verified`: the key and the par2 name. -/
def kpFrame (a b : FileRecord) : Prop :=
  b.dataRoot = a.dataRoot ∧ b.relPath = a.relPath ∧ b.par2Name = a.par2Name

theorem kpFrame_refl (a : FileRecord) : kpFrame a a := ⟨rfl, rfl, rfl⟩

theorem kpFrame_trans {a b c : FileRecord} (h1 : kpFrame a b)
    (h2 : kpFrame b c) : kpFrame a c :=
  ⟨h2.1.trans h1.1, h2.2.1.trans h1.2.1, h2.2.2.trans h1.2.2⟩

theorem forall2_kp_refl (l : List FileRecord) : List.Forall₂ kpFrame l l := by
  induction l with
  | nil => simp
  | cons x xs ih => exact List.Forall₂.cons (kpFrame_refl x) ih

theorem forall2_kp_trans :
    ∀ {A B C : List FileRecord}, List.Forall₂ kpFrame A B →
      List.Forall₂ kpFrame B C → List.Forall₂ kpFrame A C := by
  intro A B C h1 h2
  induction h2 generalizing A with
  | nil => cases h1; constructor
  | cons hbc _ ih =>
      cases h1 with
      | cons hab h1' => exact List.Forall₂.cons (kpFrame_trans hab hbc) (ih h1')

theorem forall2_kp_mapg {g : FileRecord → FileRecord}
    (hg : ∀ b, kpFrame b (g b)) :
    ∀ {A B : List FileRecord}, List.Forall₂ kpFrame A B →
      List.Forall₂ kpFrame A (B.map g) := by
  intro A B h
  induction h with
  | nil => simp
  | cons hab _ ih => exact List.Forall₂.cons (kpFrame_trans hab (hg _)) ih

theorem forall2_kp_right_mem {A B : List FileRecord}
    (h : List.Forall₂ kpFrame A B) :
    ∀ b ∈ B, ∃ a ∈ A, kpFrame a b := by
  induction h with
  | nil => simp
  | cons hab _ ih =>
      intro b hb
      rcases List.mem_cons.mp hb with rfl | hb'
      · exact ⟨_, by simp, hab⟩
      · obtain ⟨a, ha, hr⟩ := ih b hb'
        exact ⟨a, by simp [ha], hr⟩

theorem forall2_kp_hasPar2Name {A B : List FileRecord}
    (h : List.Forall₂ kpFrame A B) (n : String) :
    B.any (fun r => r.par2Name == n) = A.any (fun r => r.par2Name == n) := by
  induction h with
  | nil => rfl
  | cons hab _ ih => simp [List.any_cons, ih, hab.2.2]

/-- `classify` under the all-unchanged hypothesis: nothing needs hashing,
each scanned file pairs with its record in order. -/
theorem classify_all_unchanged (m : Manifest) :
    ∀ (l : List FileInfo),
      (∀ fi ∈ l, ∃ ex, m.getFile fi.dataRoot fi.relPath = some ex ∧
        ex.mtimeNs = fi.mtimeNs ∧ ex.fileSize = fi.size) →
      (classify m l).2 = [] ∧ (classify m l).1.length = l.length := by
  intro l
  induction l with
  | nil => intro _; exact ⟨rfl, rfl⟩
  | cons fi rest ih =>
      intro h
      obtain ⟨ex, hget, hmt, hsz⟩ := h fi (by simp)
      have hrest := ih (fun x hx => h x (by simp [hx]))
      unfold classify
      rw [hget]
      simp only [hmt, hsz, beq_self_eq_true, Bool.and_self, if_true]
      exact ⟨hrest.1, by simp [hrest.2]⟩

theorem phase4_all_seen (cfg : Config) (w : World) (now : Nat)
    (seen : List (String × String)) :
    ∀ (l : List FileRecord) (s : RState),
      (∀ r ∈ l, seen.contains (r.dataRoot, r.relPath) = true) →
      l.foldl (phase4Step cfg w now seen) s = s := by
  intro l
  induction l with
  | nil => intro s _; rfl
  | cons r rest ih =>
      intro s h
      have hr : phase4Step cfg w now seen s r = s := by
        unfold phase4Step
        rw [if_pos (by simpa using h r (by simp))]
      rw [List.foldl_cons, hr]
      exact ih s (fun x hx => h x (by simp [hx]))

theorem mem_insertSorted (x : PFile) :
    ∀ (l : List PFile) (y : PFile), y ∈ insertSorted x l → y = x ∨ y ∈ l := by
  intro l
  induction l with
  | nil =>
      intro y hy
      simp [insertSorted] at hy
      exact Or.inl hy
  | cons z zs ih =>
      intro y hy
      unfold insertSorted at hy
      by_cases hc : pfileLe x z = true
      · rw [if_pos hc] at hy
        rcases List.mem_cons.mp hy with rfl | hy'
        · exact Or.inl rfl
        · exact Or.inr hy'
      · rw [if_neg hc] at hy
        rcases List.mem_cons.mp hy with rfl | hy'
        · exact Or.inr (by simp)
        · rcases ih y hy' with h | h
          · exact Or.inl h
          · exact Or.inr (by simp [h])

theorem mem_sortPFiles :
    ∀ (l : List PFile) (y : PFile), y ∈ sortPFiles l → y ∈ l := by
  intro l
  induction l with
  | nil =>
      intro y hy
      simp [sortPFiles] at hy
  | cons x xs ih =>
      intro y hy
      unfold sortPFiles at hy
      rcases mem_insertSorted x _ y hy with rfl | hy'
      · simp
      · simp [ih y hy']

theorem phase5_no_orphans (cfg : Config) (s : RState)
    (h : ∀ f ∈ s.store.files,
      strEndsWith f.name ".par2" = true →
      listContainsSub ".vol".data f.name.data = false →
      s.m.hasPar2Name f.name = true) :
    cleanupOrphanParity cfg s = s := by
  unfold cleanupOrphanParity
  have hgen : ∀ (l : List PFile),
      (∀ f ∈ l, strEndsWith f.name ".par2" = true →
        listContainsSub ".vol".data f.name.data = false →
        s.m.hasPar2Name f.name = true) →
      l.foldl (orphanStep cfg) s = s := by
    intro l
    induction l with
    | nil => intro _; rfl
    | cons f rest ih =>
        intro hl
        have hstep : orphanStep cfg s f = s := by
          unfold orphanStep
          by_cases hb : (strEndsWith f.name ".par2" &&
              !(listContainsSub ".vol".data f.name.data)) = true
          · rw [if_pos hb]
            simp only [Bool.and_eq_true, Bool.not_eq_true'] at hb
            rw [hl f (by simp) hb.1 hb.2]
            simp
          · rw [if_neg hb]
        rw [List.foldl_cons, hstep]
        exact ih (fun x hx => hl x (by simp [hx]))
  exact hgen _ (fun f hf => h f (mem_sortPFiles _ f hf))




theorem phase3_all_ok_fold (cfg : Config) (w : World) (now : Nat)
    (vOnly : Bool) (st0 : ParityStore) :
    ∀ (l : List (FileInfo × FileRecord)) (s : RState),
      s.store = st0 →
      (∀ p ∈ l, verifyParity cfg w p.1.absPath p.2.contentHash st0 = .ok) →
      (l.foldl (phase3Step cfg w now vOnly) s).store = st0 ∧
      List.Forall₂ kpFrame s.m.files
        ((l.foldl (phase3Step cfg w now vOnly) s)).m.files ∧
      (l.foldl (phase3Step cfg w now vOnly) s).stats.filesVerified =
        s.stats.filesVerified + l.length ∧
      (l.foldl (phase3Step cfg w now vOnly) s).stats.filesCreated =
        s.stats.filesCreated ∧
      (l.foldl (phase3Step cfg w now vOnly) s).stats.filesMoved =
        s.stats.filesMoved ∧
      (l.foldl (phase3Step cfg w now vOnly) s).stats.filesDeleted =
        s.stats.filesDeleted ∧
      (l.foldl (phase3Step cfg w now vOnly) s).stats.filesTruncated =
        s.stats.filesTruncated ∧
      (l.foldl (phase3Step cfg w now vOnly) s).stats.parityRecreated =
        s.stats.parityRecreated ∧
      (l.foldl (phase3Step cfg w now vOnly) s).stats.orphanParityCleaned =
        s.stats.orphanParityCleaned := by
  intro l
  induction l with
  | nil =>
      intro s hs _
      exact ⟨hs, forall2_kp_refl _, by simp, rfl, rfl, rfl, rfl, rfl, rfl⟩
  | cons p rest ih =>
      intro s hs hok
      have hstep : phase3Step cfg w now vOnly s p =
          { s with m := s.m.markVerified now p.2.id,
                   stats := s.stats.incVerified } := by
        unfold phase3Step
        simp only [hs]
        rw [hok p (by simp)]
      rw [List.foldl_cons, hstep]
      have hrest := ih
        { s with m := s.m.markVerified now p.2.id,
                 stats := s.stats.incVerified }
        hs (fun q hq => hok q (by simp [hq]))
      refine ⟨hrest.1, ?_, ?_, ?_, ?_, ?_, ?_, ?_, ?_⟩
      · refine forall2_kp_trans ?_ hrest.2.1
        unfold Manifest.markVerified
        exact forall2_kp_mapg (fun b => by
          by_cases hb : (b.id == p.2.id) = true <;> simp [hb, kpFrame])
          (forall2_kp_refl _)
      · rw [hrest.2.2.1]
        simp [RunStats.incVerified]
        try omega
      · exact hrest.2.2.2.1
      · exact hrest.2.2.2.2.1
      · exact hrest.2.2.2.2.2.1
      · exact hrest.2.2.2.2.2.2.1
      · exact hrest.2.2.2.2.2.2.2.1
      · exact hrest.2.2.2.2.2.2.2.2



/-- Claim C8: a scan over an unmodified tree — i.e. a run whose input is
exactly consistent with the manifest and parity store left by the previous
scan (every scanned file has a record with matching mtime and size, every
record's key is seen on disk, no orphan base parity file, and every sampled
verification returns ok) — reports `files_created = files_moved =
files_deleted = files_truncated = parity_recreated = orphan_parity_cleaned
= 0`, and `files_verified` equals the size of the phase-3 sample, which at
the default `verify_percent = 100` is the eligible-file count. -/
theorem C8_second_scan_reports_zero_changes (cfg : Config) (w : World)
    (now : Nat) (m0 : Manifest) (store0 : ParityStore)
    (scanned : List FileInfo)
    (h1 : ∀ fi ∈ scanned, ∃ ex, m0.getFile fi.dataRoot fi.relPath = some ex ∧
      ex.mtimeNs = fi.mtimeNs ∧ ex.fileSize = fi.size)
    (h2 : ∀ r ∈ m0.files,
      (scanned.map (fun fi => (fi.dataRoot, fi.relPath))).contains
        (r.dataRoot, r.relPath) = true)
    (h3 : ∀ f ∈ store0.files, strEndsWith f.name ".par2" = true →
      listContainsSub ".vol".data f.name.data = false →
      m0.hasPar2Name f.name = true)
    (h4 : ∀ p ∈ (if (classify m0 scanned).1.isEmpty then
          ([] : List (FileInfo × FileRecord))
        else if cfg.verifyPercent < 100 then
          w.sample (classify m0 scanned).1
            (max 1 ((classify m0 scanned).1.length * cfg.verifyPercent / 100))
        else (classify m0 scanned).1),
      verifyParity cfg w p.1.absPath p.2.contentHash store0 = .ok) :
    (reconcile cfg w now m0 store0 scanned false).stats.filesCreated = 0 ∧
    (reconcile cfg w now m0 store0 scanned false).stats.filesMoved = 0 ∧
    (reconcile cfg w now m0 store0 scanned false).stats.filesDeleted = 0 ∧
    (reconcile cfg w now m0 store0 scanned false).stats.filesTruncated = 0 ∧
    (reconcile cfg w now m0 store0 scanned false).stats.parityRecreated
      = 0 ∧
    (reconcile cfg w now m0 store0 scanned false).stats.orphanParityCleaned
      = 0 ∧
    (reconcile cfg w now m0 store0 scanned false).stats.filesVerified =
      (if (classify m0 scanned).1.isEmpty then
          ([] : List (FileInfo × FileRecord))
        else if cfg.verifyPercent < 100 then
          w.sample (classify m0 scanned).1
            (max 1 ((classify m0 scanned).1.length * cfg.verifyPercent / 100))
        else (classify m0 scanned).1).length ∧
    (cfg.verifyPercent = 100 →
      (reconcile cfg w now m0 store0 scanned false).stats.filesVerified =
        scanned.length) := by
  obtain ⟨hnh, hlen⟩ := classify_all_unchanged m0 scanned h1
  have h3fold := phase3_all_ok_fold cfg w now false store0
    (if (classify m0 scanned).1.isEmpty then
        ([] : List (FileInfo × FileRecord))
      else if cfg.verifyPercent < 100 then
        w.sample (classify m0 scanned).1
          (max 1 ((classify m0 scanned).1.length * cfg.verifyPercent / 100))
      else (classify m0 scanned).1)
    { m := m0, store := store0,
      stats := { RunStats.init with filesScanned := scanned.length } }
    rfl h4
  have hrec : reconcile cfg w now m0 store0 scanned false =
      (if (classify m0 scanned).1.isEmpty then
          ([] : List (FileInfo × FileRecord))
        else if cfg.verifyPercent < 100 then
          w.sample (classify m0 scanned).1
            (max 1 ((classify m0 scanned).1.length * cfg.verifyPercent / 100))
        else (classify m0 scanned).1).foldl (phase3Step cfg w now false)
        { m := m0, store := store0,
          stats := { RunStats.init with filesScanned := scanned.length } } := by
    have hseen4 : ∀ r ∈ ((if (classify m0 scanned).1.isEmpty then
          ([] : List (FileInfo × FileRecord))
        else if cfg.verifyPercent < 100 then
          w.sample (classify m0 scanned).1
            (max 1 ((classify m0 scanned).1.length * cfg.verifyPercent / 100))
        else (classify m0 scanned).1).foldl (phase3Step cfg w now false)
        { m := m0, store := store0,
          stats := { RunStats.init with
            filesScanned := scanned.length } }).m.files,
        (scanned.map (fun fi => (fi.dataRoot, fi.relPath))).contains
          (r.dataRoot, r.relPath) = true := by
      intro r hrmem
      obtain ⟨a, ha, hkp⟩ := forall2_kp_right_mem h3fold.2.1 r hrmem
      rw [hkp.1, hkp.2.1]
      exact h2 a ha
    have horph : ∀ f ∈ ((if (classify m0 scanned).1.isEmpty then
          ([] : List (FileInfo × FileRecord))
        else if cfg.verifyPercent < 100 then
          w.sample (classify m0 scanned).1
            (max 1 ((classify m0 scanned).1.length * cfg.verifyPercent / 100))
        else (classify m0 scanned).1).foldl (phase3Step cfg w now false)
        { m := m0, store := store0,
          stats := { RunStats.init with
            filesScanned := scanned.length } }).store.files,
        strEndsWith f.name ".par2" = true →
        listContainsSub ".vol".data f.name.data = false →
        ((if (classify m0 scanned).1.isEmpty then
          ([] : List (FileInfo × FileRecord))
        else if cfg.verifyPercent < 100 then
          w.sample (classify m0 scanned).1
            (max 1 ((classify m0 scanned).1.length * cfg.verifyPercent / 100))
        else (classify m0 scanned).1).foldl (phase3Step cfg w now false)
        { m := m0, store := store0,
          stats := { RunStats.init with
            filesScanned := scanned.length } }).m.hasPar2Name f.name
          = true := by
      intro f hf he hv
      rw [h3fold.1] at hf
      have hm0 := h3 f hf he hv
      unfold Manifest.hasPar2Name at hm0 ⊢
      rw [forall2_kp_hasPar2Name h3fold.2.1 f.name]
      exact hm0
    unfold reconcile
    simp only [hnh, List.foldl_nil, Bool.false_eq_true, if_false]
    rw [phase4_all_seen cfg w now _ _ _ hseen4]
    exact phase5_no_orphans cfg _ horph
  rw [hrec]
  refine ⟨h3fold.2.2.2.1.trans rfl, h3fold.2.2.2.2.1.trans rfl,
    h3fold.2.2.2.2.2.1.trans rfl, h3fold.2.2.2.2.2.2.1.trans rfl,
    h3fold.2.2.2.2.2.2.2.1.trans rfl, h3fold.2.2.2.2.2.2.2.2.trans rfl,
    h3fold.2.2.1.trans (Nat.zero_add _), ?_⟩
  intro hv100
  rw [h3fold.2.2.1.trans (Nat.zero_add _)]
  by_cases he : (classify m0 scanned).1.isEmpty = true
  · rw [if_pos he]
    rw [List.isEmpty_iff] at he
    rw [he] at hlen
    simp only [List.length_nil] at hlen ⊢
    exact hlen
  · rw [if_neg he, if_neg (by omega)]
    exact hlen

def wOk : World := { wC1 with verifyExit := fun _ _ => .exited 0 }

theorem C8_second_scan_reports_zero_changes_witness :
    (reconcile cfgA wOk 5 manA storeA [fiA] false).stats.filesCreated = 0 ∧
    (reconcile cfgA wOk 5 manA storeA [fiA] false).stats.filesMoved = 0 ∧
    (reconcile cfgA wOk 5 manA storeA [fiA] false).stats.filesDeleted
      = 0 ∧
    (reconcile cfgA wOk 5 manA storeA [fiA] false).stats.filesTruncated
      = 0 ∧
    (reconcile cfgA wOk 5 manA storeA [fiA] false).stats.parityRecreated
      = 0 ∧
    (reconcile cfgA wOk 5 manA
        storeA [fiA] false).stats.orphanParityCleaned = 0 ∧
    (reconcile cfgA wOk 5 manA storeA [fiA] false).stats.filesVerified =
      [fiA].length :=
  have h := C8_second_scan_reports_zero_changes cfgA wOk 5 manA storeA
    [fiA]
    (by
      intro fi hfi
      rw [List.mem_singleton] at hfi
      subst hfi
      exact ⟨recA, by decide, rfl, rfl⟩)
    (by decide) (by decide) (by decide)
  ⟨h.1, h.2.1, h.2.2.1, h.2.2.2.1, h.2.2.2.2.1, h.2.2.2.2.2.1,
    h.2.2.2.2.2.2.2 rfl⟩

end Par2Integrity

namespace Par2Integrity

/-- `recA` already marked damaged by an earlier run. -/
def recDam : FileRecord := { recA with status := .damaged }

def manDam : Manifest :=
  { files := [recDam], nextId := 2, runs := [], nextRunId := 1 }

theorem C4_counterexample :
    (runScan cfgA wC1 5 manDam storeA [fiTouch] false).2 = 0 ∧
    (runScan cfgA wC1 5 manDam storeA [fiTouch]
        false).1.m.files.map (fun r => r.status) = [FStatus.damaged] := by
  constructor <;> decide

/-- Well-formedness of the `files` table: ids are distinct and below the
AUTOINCREMENT counter. -/
def idsWF (m : Manifest) : Prop :=
  (m.files.map (fun r => r.id)).Nodup ∧ ∀ r ∈ m.files, r.id < m.nextId

theorem idsWF_mapOp {m : Manifest} (h : idsWF m) {g : FileRecord → FileRecord}
    (hg : ∀ r, (g r).id = r.id) :
    idsWF { m with files := m.files.map g } := by
  constructor
  · have : (m.files.map g).map (fun r => r.id) =
        m.files.map (fun r => r.id) := by
      rw [List.map_map]
      exact List.map_congr_left (fun r _ => hg r)
    rw [this]
    exact h.1
  · intro r hr
    obtain ⟨r0, hr0, rfl⟩ := List.mem_map.mp hr
    rw [hg r0]
    exact h.2 r0 hr0

theorem idsWF_updateMtime {m : Manifest} (h : idsWF m) (now i mt : Nat) :
    idsWF (m.updateMtime now i mt) :=
  idsWF_mapOp h (fun r => by by_cases hb : (r.id == i) = true <;> simp [hb])

theorem idsWF_updatePath {m : Manifest} (h : idsWF m) (now : Nat) (i : Nat)
    (p d : String) : idsWF (m.updatePath now i p d) :=
  idsWF_mapOp h (fun r => by by_cases hb : (r.id == i) = true <;> simp [hb])

theorem idsWF_updateStatus {m : Manifest} (h : idsWF m) (now i : Nat)
    (st : FStatus) : idsWF (m.updateStatus now i st) :=
  idsWF_mapOp h (fun r => by by_cases hb : (r.id == i) = true <;> simp [hb])

theorem idsWF_markVerified {m : Manifest} (h : idsWF m) (now i : Nat) :
    idsWF (m.markVerified now i) :=
  idsWF_mapOp h (fun r => by by_cases hb : (r.id == i) = true <;> simp [hb])

theorem idsWF_append_fresh {m : Manifest} (h : idsWF m) (r : FileRecord)
    (hid : r.id = m.nextId) :
    idsWF { m with files := m.files ++ [r], nextId := m.nextId + 1 } := by
  constructor
  · show ((m.files ++ [r]).map (fun x => x.id)).Nodup
    rw [List.map_append, List.nodup_append]
    refine ⟨h.1, by simp, ?_⟩
    intro x hx hmem
    simp only [List.map_cons, List.map_nil, List.mem_singleton] at hmem
    obtain ⟨r0, hr0, hx0⟩ := List.mem_map.mp hx
    have hlt := h.2 r0 hr0
    rw [← hx0, hid] at hmem
    omega
  · intro x hx
    rcases List.mem_append.mp hx with hl | hl
    · have := h.2 x hl
      show x.id < m.nextId + 1
      omega
    · simp only [List.mem_singleton] at hl
      subst hl
      show x.id < m.nextId + 1
      omega

theorem idsWF_upsert {m : Manifest} (h : idsWF m) (now : Nat)
    (dr rp : String) (sz mt : Nat) (ch p2 : String) (st : FStatus) :
    idsWF (m.upsertFile now dr rp sz mt ch p2 st) := by
  unfold Manifest.upsertFile
  by_cases hc : m.files.any
      (fun r => r.dataRoot == dr && r.relPath == rp) = true
  · rw [if_pos hc]
    exact idsWF_mapOp h (fun r => by
      by_cases hb : (r.dataRoot == dr && r.relPath == rp) = true <;>
        simp [hb])
  · rw [if_neg hc]
    exact idsWF_append_fresh h _ rfl

theorem idsWF_deleteFile {m : Manifest} (h : idsWF m) (i : Nat) :
    idsWF (m.deleteFile i) := by
  unfold Manifest.deleteFile
  constructor
  · exact (List.Sublist.map _ (List.filter_sublist m.files)).nodup h.1
  · intro r hr
    exact h.2 r (List.mem_of_mem_filter hr)

/-- Members with equal ids in an `idsWF` table are equal. -/
theorem idsWF_id_inj {m : Manifest} (h : idsWF m) {a b : FileRecord}
    (ha : a ∈ m.files) (hb : b ∈ m.files) (hid : a.id = b.id) : a = b :=
  List.inj_on_of_nodup_map h.1 ha hb hid

end Par2Integrity

namespace Par2Integrity

theorem classify_mem (m : Manifest) :
    ∀ (l : List FileInfo) (p : FileInfo × FileRecord),
      p ∈ (classify m l).1 → p.1 ∈ l ∧
        m.getFile p.1.dataRoot p.1.relPath = some p.2 := by
  intro l
  induction l with
  | nil => intro p hp; simp [classify] at hp
  | cons fi rest ih =>
      intro p hp
      unfold classify at hp
      rcases hg : m.getFile fi.dataRoot fi.relPath with _ | ex
      · rw [hg] at hp
        simp only [] at hp
        obtain ⟨h1, h2⟩ := ih p hp
        exact ⟨by simp [h1], h2⟩
      · rw [hg] at hp
        simp only [] at hp
        by_cases hb : (ex.mtimeNs == fi.mtimeNs && ex.fileSize == fi.size)
            = true
        · rw [if_pos hb] at hp
          simp only [] at hp
          rcases List.mem_cons.mp hp with rfl | hp'
          · exact ⟨by simp, hg⟩
          · obtain ⟨h1, h2⟩ := ih p hp'
            exact ⟨by simp [h1], h2⟩
        · rw [if_neg hb] at hp
          simp only [] at hp
          obtain ⟨h1, h2⟩ := ih p hp
          exact ⟨by simp [h1], h2⟩

theorem classify_fst_sublist (m : Manifest) :
    ∀ (l : List FileInfo), ((classify m l).1.map Prod.fst).Sublist l := by
  intro l
  induction l with
  | nil => simp [classify]
  | cons fi rest ih =>
      unfold classify
      rcases hg : m.getFile fi.dataRoot fi.relPath with _ | ex
      · exact ih.cons fi
      · simp only []
        by_cases hb : (ex.mtimeNs == fi.mtimeNs && ex.fileSize == fi.size)
            = true
        · rw [if_pos hb]
          simpa using ih.cons₂ fi
        · rw [if_neg hb]
          exact ih.cons fi

theorem getFile_mem {m : Manifest} {dr rp : String} {r : FileRecord}
    (h : m.getFile dr rp = some r) :
    r ∈ m.files ∧ r.dataRoot = dr ∧ r.relPath = rp := by
  unfold Manifest.getFile at h
  have hmem := List.mem_of_find?_eq_some h
  have hpred := List.find?_some h
  simp only [Bool.and_eq_true, beq_iff_eq] at hpred
  exact ⟨hmem, hpred.1, hpred.2⟩

end Par2Integrity

namespace Par2Integrity

theorem tryMatchMove_spec {cfg : Config} {m : Manifest} {now : Nat}
    {fi : FileInfo} {ch : String} {seen : List (String × String)}
    {p : String} {m1 : Manifest}
    (h : tryMatchMove cfg m now fi ch seen = some (p, m1)) :
    ∃ best ∈ m.files,
      seen.contains (best.dataRoot, best.relPath) = false ∧
      m1 = (m.updatePath now best.id fi.relPath
        fi.dataRoot).updateMtime now best.id fi.mtimeNs := by
  unfold tryMatchMove at h
  by_cases he : ((m.getFilesByHash ch).filter
      (fun c => !(seen.contains (c.dataRoot, c.relPath)))).isEmpty = true
  · rw [if_pos he] at h
    exact absurd h (by simp)
  · rw [if_neg he] at h
    rcases hsorted : ((m.getFilesByHash ch).filter
        (fun c => !(seen.contains (c.dataRoot, c.relPath)))).filter
          (fun c => c.dataRoot == fi.dataRoot) ++
        ((m.getFilesByHash ch).filter
          (fun c => !(seen.contains (c.dataRoot, c.relPath)))).filter
          (fun c => !(c.dataRoot == fi.dataRoot)) with _ | ⟨best, rest⟩
    · rw [hsorted] at h
      exact absurd h (by simp)
    · rw [hsorted] at h
      simp only [Option.some_inj, Prod.mk.injEq] at h
      have hbmem : best ∈ ((m.getFilesByHash ch).filter
          (fun c => !(seen.contains (c.dataRoot, c.relPath)))).filter
            (fun c => c.dataRoot == fi.dataRoot) ++
          ((m.getFilesByHash ch).filter
            (fun c => !(seen.contains (c.dataRoot, c.relPath)))).filter
            (fun c => !(c.dataRoot == fi.dataRoot)) := by
        rw [hsorted]
        simp
      have hdis : best ∈ (m.getFilesByHash ch).filter
          (fun c => !(seen.contains (c.dataRoot, c.relPath))) := by
        rcases List.mem_append.mp hbmem with hb | hb
        · exact List.mem_of_mem_filter hb
        · exact List.mem_of_mem_filter hb
      have hfiles : best ∈ m.files := by
        have := List.mem_of_mem_filter hdis
        unfold Manifest.getFilesByHash at this
        exact List.mem_of_mem_filter this
      have hns : seen.contains (best.dataRoot, best.relPath) = false := by
        have := List.of_mem_filter hdis
        simpa using this
      exact ⟨best, hfiles, hns, h.2.symm⟩

/-- For every pair scheduled for phase-3 verification there is a current
row with the pair's id and key. -/
def curOK (toV : List (FileInfo × FileRecord)) (m : Manifest) : Prop :=
  ∀ p ∈ toV, ∃ cur ∈ m.files, cur.id = p.2.id ∧
    cur.dataRoot = p.1.dataRoot ∧ cur.relPath = p.1.relPath

theorem curOK_mapOp {toV} {m : Manifest} (h : curOK toV m)
    {g : FileRecord → FileRecord}
    (hg : ∀ r, (g r).id = r.id ∧ (g r).dataRoot = r.dataRoot ∧
      (g r).relPath = r.relPath) :
    curOK toV { m with files := m.files.map g } := by
  intro p hp
  obtain ⟨cur, hcur, h1, h2, h3⟩ := h p hp
  exact ⟨g cur, List.mem_map_of_mem g hcur, (hg cur).1.trans h1,
    (hg cur).2.1.trans h2, (hg cur).2.2.trans h3⟩

theorem curOK_upsert {toV} {m : Manifest} (h : curOK toV m) (now : Nat)
    (dr rp : String) (sz mt : Nat) (ch p2 : String) (st : FStatus) :
    curOK toV (m.upsertFile now dr rp sz mt ch p2 st) := by
  unfold Manifest.upsertFile
  by_cases hc : m.files.any
      (fun r => r.dataRoot == dr && r.relPath == rp) = true
  · rw [if_pos hc]
    exact curOK_mapOp h (fun r => by
      by_cases hb : (r.dataRoot == dr && r.relPath == rp) = true <;>
        simp [hb])
  · rw [if_neg hc]
    intro p hp
    obtain ⟨cur, hcur, h1, h2, h3⟩ := h p hp
    exact ⟨cur, by simp [List.mem_append, hcur], h1, h2, h3⟩

theorem curOK_updatePath {toV} {m : Manifest} (hwf : idsWF m)
    (h : curOK toV m) (seen : List (String × String))
    (hstatic : ∀ p ∈ toV, (p.1.dataRoot, p.1.relPath) ∈ seen)
    {best : FileRecord} (hbf : best ∈ m.files)
    (hbs : seen.contains (best.dataRoot, best.relPath) = false)
    (now mt : Nat) (rp dr : String) :
    curOK toV ((m.updatePath now best.id rp dr).updateMtime now best.id
      mt) := by
  intro p hp
  obtain ⟨cur, hcur, h1, h2, h3⟩ := h p hp
  have hne : (cur.id == best.id) = false := by
    by_cases hid : cur.id = best.id
    · exfalso
      have : cur = best := idsWF_id_inj hwf hcur hbf hid
      subst this
      have hmem : (cur.dataRoot, cur.relPath) ∈ seen := by
        rw [h2, h3]
        exact hstatic p hp
      simp [hmem] at hbs
    · simp [hid]
  refine ⟨cur, ?_, h1, h2, h3⟩
  simp only [Manifest.updateMtime, Manifest.updatePath, List.mem_map]
  exact ⟨cur, ⟨cur, hcur, by simp [hne]⟩, by simp [hne]⟩

end Par2Integrity

namespace Par2Integrity

theorem mem_map_of_fixed {α : Type} {a : α} {l : List α} (g : α → α)
    (ha : a ∈ l) (hg : g a = a) : a ∈ l.map g := by
  rw [← hg]
  exact List.mem_map_of_mem g ha

theorem mem_mapIf_of_ne {l : List FileRecord} {W : FileRecord} {i : Nat}
    (hW : W ∈ l) (hne : (W.id == i) = false) (g : FileRecord → FileRecord) :
    W ∈ l.map (fun r => if r.id == i then g r else r) :=
  mem_map_of_fixed _ hW (by simp [hne])

theorem mem_deleteFile {m : Manifest} {W : FileRecord} (hW : W ∈ m.files)
    {i : Nat} (hne : W.id ≠ i) : W ∈ (m.deleteFile i).files := by
  unfold Manifest.deleteFile
  exact List.mem_filter.mpr ⟨hW, by simp [hne]⟩

theorem mem_upsert_of_ne_key {m : Manifest} {W : FileRecord}
    (hW : W ∈ m.files) {dr rp : String}
    (hne : ¬(W.dataRoot = dr ∧ W.relPath = rp))
    (now sz mt : Nat) (ch p2 : String) (st : FStatus) :
    W ∈ (m.upsertFile now dr rp sz mt ch p2 st).files := by
  unfold Manifest.upsertFile
  by_cases hc : m.files.any
      (fun r => r.dataRoot == dr && r.relPath == rp) = true
  · rw [if_pos hc]
    refine mem_map_of_fixed _ hW ?_
    have hb : (W.dataRoot == dr && W.relPath == rp) = false := by
      by_cases hd : W.dataRoot = dr
      · have hr : W.relPath ≠ rp := fun hr => hne ⟨hd, hr⟩
        simp [hr]
      · simp [hd]
    simp [hb]
  · rw [if_neg hc]
    simp [hW]

theorem curOK_updateMtime {toV} {m : Manifest} (h : curOK toV m)
    (now i mt : Nat) : curOK toV (m.updateMtime now i mt) :=
  curOK_mapOp h (fun r => by
    by_cases hb : (r.id == i) = true <;> simp [hb])

theorem curOK_updateStatus {toV} {m : Manifest} (h : curOK toV m)
    (now i : Nat) (st : FStatus) : curOK toV (m.updateStatus now i st) :=
  curOK_mapOp h (fun r => by
    by_cases hb : (r.id == i) = true <;> simp [hb])

theorem curOK_markVerified {toV} {m : Manifest} (h : curOK toV m)
    (now i : Nat) : curOK toV (m.markVerified now i) :=
  curOK_mapOp h (fun r => by
    by_cases hb : (r.id == i) = true <;> simp [hb])

/-- Invariant carried through phase 2 towards the phase-3 worklist. -/
def p2Inv (toV : List (FileInfo × FileRecord)) (s : RState) : Prop :=
  idsWF s.m ∧ curOK toV s.m ∧ s.stats.filesDamaged = 0 ∧
    s.stats.filesTruncated = 0

theorem phase2Step_p2Inv {toV : List (FileInfo × FileRecord)}
    (cfg : Config) (w : World) (now : Nat) (vo : Bool)
    (seen : List (String × String))
    (hstatic : ∀ p ∈ toV, (p.1.dataRoot, p.1.relPath) ∈ seen) :
    ∀ (s : RState) (fi : FileInfo), p2Inv toV s →
      p2Inv toV (phase2Step cfg w now vo seen s fi) := by
  intro s fi h
  obtain ⟨hwf, hcur, hdam, htr⟩ := h
  unfold phase2Step
  rcases w.hashOf fi.absPath with _ | ch
  · exact ⟨hwf, hcur, by simp [RunStats.addError, hdam],
      by simp [RunStats.addError, htr]⟩
  · rcases hg : s.m.getFile fi.dataRoot fi.relPath with _ | ex
    · simp only []
      rcases ht : tryMatchMove cfg s.m now fi ch seen with _ | ⟨op, m1⟩
      · simp only []
        by_cases hv : vo = true
        · rw [if_pos hv]
          exact ⟨hwf, hcur, hdam, htr⟩
        · rw [if_neg hv]
          by_cases hres : (createParity cfg w fi.absPath ch s.store).2 = true
          · rw [if_pos hres]
            exact ⟨idsWF_upsert hwf now fi.dataRoot fi.relPath fi.size
                fi.mtimeNs ch (cfg.par2NameForHash ch) .ok,
              curOK_upsert hcur now fi.dataRoot fi.relPath fi.size
                fi.mtimeNs ch (cfg.par2NameForHash ch) .ok,
              by simp [RunStats.incCreated, hdam],
              by simp [RunStats.incCreated, htr]⟩
          · rw [if_neg hres]
            exact ⟨hwf, hcur, by simp [RunStats.addError, hdam],
              by simp [RunStats.addError, htr]⟩
      · obtain ⟨best, hbf, hbs, hm1⟩ := tryMatchMove_spec ht
        subst hm1
        exact ⟨idsWF_updateMtime (idsWF_updatePath hwf now best.id
            fi.relPath fi.dataRoot) now best.id fi.mtimeNs,
          curOK_updatePath hwf hcur seen hstatic hbf hbs now fi.mtimeNs
            fi.relPath fi.dataRoot,
          by simp [RunStats.incMoved, hdam],
          by simp [RunStats.incMoved, htr]⟩
    · simp only []
      by_cases hh : (ex.contentHash == ch) = true
      · rw [if_pos hh]
        exact ⟨idsWF_updateMtime hwf now ex.id fi.mtimeNs,
          curOK_updateMtime hcur now ex.id fi.mtimeNs, hdam, htr⟩
      · rw [if_neg hh]
        by_cases hv : vo = true
        · rw [if_pos hv]
          exact ⟨hwf, hcur, hdam, htr⟩
        · rw [if_neg hv]
          by_cases hres : (createParity cfg w fi.absPath ch s.store).2 = true
          · rw [if_pos hres]
            exact ⟨idsWF_upsert hwf now fi.dataRoot fi.relPath fi.size
                fi.mtimeNs ch (cfg.par2NameForHash ch) .ok,
              curOK_upsert hcur now fi.dataRoot fi.relPath fi.size
                fi.mtimeNs ch (cfg.par2NameForHash ch) .ok,
              by simp [RunStats.incCreated, hdam],
              by simp [RunStats.incCreated, htr]⟩
          · rw [if_neg hres]
            exact ⟨hwf, hcur, by simp [RunStats.addError, hdam],
              by simp [RunStats.addError, htr]⟩

end Par2Integrity

namespace Par2Integrity

theorem phase3_fold (cfg : Config) (w : World) (now : Nat) (vo : Bool)
    (seen : List (String × String)) :
    ∀ (l : List (FileInfo × FileRecord)) (s : RState),
      idsWF s.m → curOK l s.m →
      (l.map (fun p => (p.1.dataRoot, p.1.relPath))).Nodup →
      (∀ p ∈ l, (p.1.dataRoot, p.1.relPath) ∈ seen) →
      s.stats.filesTruncated = 0 →
      (s.stats.filesDamaged > 0 → ∃ r ∈ s.m.files,
        r.status = .damaged ∧ (r.dataRoot, r.relPath) ∈ seen ∧
        (r.dataRoot, r.relPath) ∉
          l.map (fun p => (p.1.dataRoot, p.1.relPath))) →
      idsWF (l.foldl (phase3Step cfg w now vo) s).m ∧
      (l.foldl (phase3Step cfg w now vo) s).stats.filesTruncated = 0 ∧
      ((l.foldl (phase3Step cfg w now vo) s).stats.filesDamaged > 0 →
        ∃ r ∈ (l.foldl (phase3Step cfg w now vo) s).m.files,
          r.status = .damaged ∧ (r.dataRoot, r.relPath) ∈ seen) := by
  intro l
  induction l with
  | nil =>
      intro s hwf _ _ _ htr hdam
      exact ⟨hwf, htr, fun h =>
        (hdam h).imp (fun r hr => ⟨hr.1, hr.2.1, hr.2.2.1⟩)⟩
  | cons p l' ih =>
      intro s hwf hcur hnd hst htr hdam
      obtain ⟨fi, rcd⟩ := p
      obtain ⟨cur, hcf, hcid, hcd, hcr⟩ := hcur ⟨fi, rcd⟩ (by simp)
      rw [List.map_cons] at hnd
      have hknotin : (fi.dataRoot, fi.relPath) ∉
          l'.map (fun p => (p.1.dataRoot, p.1.relPath)) :=
        (List.nodup_cons.mp hnd).1
      have hnd2 : (l'.map (fun p => (p.1.dataRoot, p.1.relPath))).Nodup :=
        (List.nodup_cons.mp hnd).2
      have hfik : (fi.dataRoot, fi.relPath) ∈ seen :=
        hst ⟨fi, rcd⟩ (by simp)
      have hcur2 : curOK l' s.m := fun q hq =>
        hcur q (List.mem_cons_of_mem _ hq)
      have hst2 : ∀ p ∈ l', (p.1.dataRoot, p.1.relPath) ∈ seen :=
        fun q hq => hst q (List.mem_cons_of_mem _ hq)
      have hstep : idsWF (phase3Step cfg w now vo s ⟨fi, rcd⟩).m ∧
          curOK l' (phase3Step cfg w now vo s ⟨fi, rcd⟩).m ∧
          (phase3Step cfg w now vo s ⟨fi, rcd⟩).stats.filesTruncated = 0 ∧
          ((phase3Step cfg w now vo s ⟨fi, rcd⟩).stats.filesDamaged > 0 →
            ∃ r ∈ (phase3Step cfg w now vo s ⟨fi, rcd⟩).m.files,
              r.status = .damaged ∧ (r.dataRoot, r.relPath) ∈ seen ∧
              (r.dataRoot, r.relPath) ∉
                l'.map (fun p => (p.1.dataRoot, p.1.relPath))) := by
        unfold phase3Step
        simp only []
        rcases hv : verifyParity cfg w fi.absPath rcd.contentHash s.store
        case ok =>
          have hneW : ∀ W ∈ s.m.files, W.status = FStatus.damaged →
              (W.dataRoot, W.relPath) ∉
                ((⟨fi, rcd⟩ :: l').map
                  (fun p => (p.1.dataRoot, p.1.relPath))) →
              (W.id == rcd.id) = false := by
            intro W hWf _ hWnot
            by_cases hid : W.id = rcd.id
            · exfalso
              have hWc : W = cur :=
                idsWF_id_inj hwf hWf hcf (hid.trans hcid.symm)
              apply hWnot
              rw [hWc]
              simp [hcd, hcr]
            · simp [hid]
          refine ⟨idsWF_markVerified hwf now rcd.id,
            curOK_markVerified hcur2 now rcd.id,
            by simpa [RunStats.incVerified] using htr, ?_⟩
          intro hpos
          obtain ⟨W, hWf, hWs, hWseen, hWnot⟩ :=
            hdam (by simpa [RunStats.incVerified] using hpos)
          have hne := hneW W hWf hWs hWnot
          refine ⟨W, ?_, hWs, hWseen, ?_⟩
          · simp only [Manifest.markVerified]
            exact mem_mapIf_of_ne hWf hne _
          · exact fun hmem => hWnot (by simp [hmem])
        case damaged =>
          refine ⟨idsWF_updateStatus hwf now rcd.id .damaged,
            curOK_updateStatus hcur2 now rcd.id .damaged,
            by simpa [RunStats.incVerified, RunStats.incDamaged] using htr,
            ?_⟩
          intro _
          refine ⟨{ cur with status := .damaged, updatedAt := now },
            ?_, rfl, ?_, ?_⟩
          · simp only [Manifest.updateStatus]
            refine List.mem_map.mpr ⟨cur, hcf, ?_⟩
            simp [hcid]
          · show (cur.dataRoot, cur.relPath) ∈ seen
            rw [hcd, hcr]
            exact hfik
          · show (cur.dataRoot, cur.relPath) ∉
              l'.map (fun p => (p.1.dataRoot, p.1.relPath))
            rw [hcd, hcr]
            exact hknotin
        case missingParity =>
          by_cases hvo : vo = true
          · rw [if_pos hvo]
            refine ⟨hwf, hcur2,
              by simpa [RunStats.incVerified, RunStats.addError] using htr,
              ?_⟩
            intro hpos
            obtain ⟨W, hWf, hWs, hWseen, hWnot⟩ := hdam
              (by simpa [RunStats.incVerified, RunStats.addError] using hpos)
            exact ⟨W, hWf, hWs, hWseen,
              fun hmem => hWnot (by simp [hmem])⟩
          · rw [if_neg hvo]
            unfold handleMissingParity
            rcases w.hashOf fi.absPath with _ | ch2
            · refine ⟨hwf, hcur2,
                by simpa [RunStats.incVerified, RunStats.addError] using htr,
                ?_⟩
              intro hpos
              obtain ⟨W, hWf, hWs, hWseen, hWnot⟩ := hdam
                (by simpa [RunStats.incVerified, RunStats.addError]
                  using hpos)
              exact ⟨W, hWf, hWs, hWseen,
                fun hmem => hWnot (by simp [hmem])⟩
            · simp only []
              by_cases hmatch : (ch2 == rcd.contentHash) = true
              · rw [if_pos hmatch]
                by_cases hres : (createParity cfg w fi.absPath ch2
                    s.store).2 = true
                · rw [if_pos hres]
                  refine ⟨idsWF_markVerified hwf now rcd.id,
                    curOK_markVerified hcur2 now rcd.id,
                    by simpa [RunStats.incVerified, RunStats.incRecreated]
                      using htr, ?_⟩
                  intro hpos
                  obtain ⟨W, hWf, hWs, hWseen, hWnot⟩ := hdam
                    (by simpa [RunStats.incVerified, RunStats.incRecreated]
                      using hpos)
                  have hne : (W.id == rcd.id) = false := by
                    by_cases hid : W.id = rcd.id
                    · exfalso
                      have hWc : W = cur :=
                        idsWF_id_inj hwf hWf hcf (hid.trans hcid.symm)
                      apply hWnot
                      rw [hWc]
                      simp [hcd, hcr]
                    · simp [hid]
                  refine ⟨W, ?_, hWs, hWseen, ?_⟩
                  · simp only [Manifest.markVerified]
                    exact mem_mapIf_of_ne hWf hne _
                  · exact fun hmem => hWnot (by simp [hmem])
                · rw [if_neg hres]
                  refine ⟨hwf, hcur2,
                    by simpa [RunStats.incVerified, RunStats.addError]
                      using htr, ?_⟩
                  intro hpos
                  obtain ⟨W, hWf, hWs, hWseen, hWnot⟩ := hdam
                    (by simpa [RunStats.incVerified, RunStats.addError]
                      using hpos)
                  exact ⟨W, hWf, hWs, hWseen,
                    fun hmem => hWnot (by simp [hmem])⟩
              · rw [if_neg hmatch]
                by_cases hres : (createParity cfg w fi.absPath ch2
                    s.store).2 = true
                · rw [if_pos hres]
                  refine ⟨idsWF_upsert hwf now fi.dataRoot fi.relPath
                      fi.size fi.mtimeNs ch2 (cfg.par2NameForHash ch2) .ok,
                    curOK_upsert hcur2 now fi.dataRoot fi.relPath fi.size
                      fi.mtimeNs ch2 (cfg.par2NameForHash ch2) .ok,
                    by simpa [RunStats.incVerified, RunStats.incRecreated]
                      using htr, ?_⟩
                  intro hpos
                  obtain ⟨W, hWf, hWs, hWseen, hWnot⟩ := hdam
                    (by simpa [RunStats.incVerified, RunStats.incRecreated]
                      using hpos)
                  have hnk : ¬(W.dataRoot = fi.dataRoot ∧
                      W.relPath = fi.relPath) := by
                    rintro ⟨h1, h2⟩
                    exact hWnot (by simp [h1, h2])
                  refine ⟨W, mem_upsert_of_ne_key hWf hnk now fi.size
                      fi.mtimeNs ch2 (cfg.par2NameForHash ch2) .ok,
                    hWs, hWseen, ?_⟩
                  exact fun hmem => hWnot (by simp [hmem])
                · rw [if_neg hres]
                  refine ⟨hwf, hcur2,
                    by simpa [RunStats.incVerified, RunStats.addError]
                      using htr, ?_⟩
                  intro hpos
                  obtain ⟨W, hWf, hWs, hWseen, hWnot⟩ := hdam
                    (by simpa [RunStats.incVerified, RunStats.addError]
                      using hpos)
                  exact ⟨W, hWf, hWs, hWseen,
                    fun hmem => hWnot (by simp [hmem])⟩
        case error =>
          refine ⟨hwf, hcur2,
            by simpa [RunStats.incVerified, RunStats.addError] using htr,
            ?_⟩
          intro hpos
          obtain ⟨W, hWf, hWs, hWseen, hWnot⟩ := hdam
            (by simpa [RunStats.incVerified, RunStats.addError] using hpos)
          exact ⟨W, hWf, hWs, hWseen,
            fun hmem => hWnot (by simp [hmem])⟩
      simp only [List.foldl_cons]
      exact ih (phase3Step cfg w now vo s ⟨fi, rcd⟩) hstep.1 hstep.2.1
        hnd2 hst2 hstep.2.2.1 hstep.2.2.2

end Par2Integrity

namespace Par2Integrity

theorem phase4_fold (cfg : Config) (w : World) (now : Nat)
    (seen : List (String × String)) :
    ∀ (rest : List FileRecord) (s : RState),
      (rest.map (fun r => r.id)).Nodup →
      idsWF s.m →
      (∀ r ∈ rest, r ∈ s.m.files) →
      (s.stats.filesDamaged > 0 → ∃ r ∈ s.m.files,
        r.status = .damaged ∧ (r.dataRoot, r.relPath) ∈ seen) →
      (s.stats.filesTruncated > 0 → ∃ r ∈ s.m.files,
        r.status = .truncated ∧ r.id ∉ rest.map (fun x => x.id)) →
      ((rest.foldl (phase4Step cfg w now seen) s).stats.filesDamaged > 0 →
        ∃ r ∈ (rest.foldl (phase4Step cfg w now seen) s).m.files,
          r.status = .damaged) ∧
      ((rest.foldl (phase4Step cfg w now seen) s).stats.filesTruncated > 0 →
        ∃ r ∈ (rest.foldl (phase4Step cfg w now seen) s).m.files,
          r.status = .truncated) := by
  intro rest
  induction rest with
  | nil =>
      intro s _ _ _ hdam htr
      exact ⟨fun h => (hdam h).imp (fun r hr => ⟨hr.1, hr.2.1⟩),
        fun h => (htr h).imp (fun r hr => ⟨hr.1, hr.2.1⟩)⟩
  | cons rcd rest ih =>
      intro s hnd hwf hsub hdam htr
      rw [List.map_cons] at hnd
      have hidnot : rcd.id ∉ rest.map (fun x => x.id) :=
        (List.nodup_cons.mp hnd).1
      have hnd2 : (rest.map (fun x => x.id)).Nodup :=
        (List.nodup_cons.mp hnd).2
      have hrf : rcd ∈ s.m.files := hsub rcd (by simp)
      have hstep : idsWF (phase4Step cfg w now seen s rcd).m ∧
          (∀ r ∈ rest, r ∈ (phase4Step cfg w now seen s rcd).m.files) ∧
          ((phase4Step cfg w now seen s rcd).stats.filesDamaged > 0 →
            ∃ r ∈ (phase4Step cfg w now seen s rcd).m.files,
              r.status = .damaged ∧ (r.dataRoot, r.relPath) ∈ seen) ∧
          ((phase4Step cfg w now seen s rcd).stats.filesTruncated > 0 →
            ∃ r ∈ (phase4Step cfg w now seen s rcd).m.files,
              r.status = .truncated ∧
              r.id ∉ rest.map (fun x => x.id)) := by
        unfold phase4Step
        by_cases hseen : seen.contains (rcd.dataRoot, rcd.relPath) = true
        · rw [if_pos hseen]
          refine ⟨hwf, fun r hr => hsub r (List.mem_cons_of_mem _ hr),
            hdam, ?_⟩
          intro hpos
          obtain ⟨T, hTf, hTs, hTnot⟩ := htr hpos
          exact ⟨T, hTf, hTs,
            fun hmem => hTnot (List.mem_cons_of_mem _ hmem)⟩
        · rw [if_neg hseen]
          have hkey : (rcd.dataRoot, rcd.relPath) ∉ seen := by
            simpa using hseen
          have hdamW : ∀ W ∈ s.m.files, (W.dataRoot, W.relPath) ∈ seen →
              W.id ≠ rcd.id := by
            intro W hWf hWseen hid
            have : W = rcd := idsWF_id_inj hwf hWf hrf hid
            rw [this] at hWseen
            exact hkey hWseen
          have hdel : idsWF (deleteFileAndParity cfg s rcd).m ∧
              (∀ r ∈ rest, r ∈ (deleteFileAndParity cfg s rcd).m.files) ∧
              ((deleteFileAndParity cfg s rcd).stats.filesDamaged > 0 →
                ∃ r ∈ (deleteFileAndParity cfg s rcd).m.files,
                  r.status = .damaged ∧ (r.dataRoot, r.relPath) ∈ seen) ∧
              ((deleteFileAndParity cfg s rcd).stats.filesTruncated > 0 →
                ∃ r ∈ (deleteFileAndParity cfg s rcd).m.files,
                  r.status = .truncated ∧
                  r.id ∉ rest.map (fun x => x.id)) := by
            unfold deleteFileAndParity
            refine ⟨idsWF_deleteFile hwf rcd.id, ?_, ?_, ?_⟩
            · intro r hr
              refine mem_deleteFile (hsub r (List.mem_cons_of_mem _ hr)) ?_
              intro hid
              exact hidnot (hid ▸ List.mem_map_of_mem (fun x => x.id) hr)
            · intro hpos
              obtain ⟨W, hWf, hWs, hWseen⟩ := hdam
                (by simpa [RunStats.incDeleted] using hpos)
              exact ⟨W, mem_deleteFile hWf (hdamW W hWf hWseen), hWs,
                hWseen⟩
            · intro hpos
              obtain ⟨T, hTf, hTs, hTnot⟩ := htr
                (by simpa [RunStats.incDeleted] using hpos)
              have hTne : T.id ≠ rcd.id := by
                intro hid
                exact hTnot (by simp [hid])
              exact ⟨T, mem_deleteFile hTf hTne, hTs,
                fun hmem => hTnot (List.mem_cons_of_mem _ hmem)⟩
          by_cases hex : w.existsAt (absPathOf cfg rcd.dataRoot
              rcd.relPath) = true
          · rw [if_pos hex]
            by_cases hexc : (shouldExclude rcd.dataRoot cfg.excludePatterns ||
                (relParts rcd.relPath).any
                  (fun part => shouldExclude part cfg.excludePatterns))
                = true
            · rw [if_pos hexc]
              exact hdel
            · rw [if_neg hexc]
              by_cases hsz : exceedsMaxFileSize cfg (w.sizeAt (absPathOf cfg
                  rcd.dataRoot rcd.relPath)) = true
              · rw [if_pos hsz]
                exact hdel
              · rw [if_neg hsz]
                refine ⟨idsWF_updateStatus hwf now rcd.id .truncated,
                  ?_, ?_, ?_⟩
                · intro r hr
                  have hne : (r.id == rcd.id) = false := by
                    have : r.id ≠ rcd.id := by
                      intro hid
                      exact hidnot
                        (hid ▸ List.mem_map_of_mem (fun x => x.id) hr)
                    simp [this]
                  simp only [Manifest.updateStatus]
                  exact mem_mapIf_of_ne
                    (hsub r (List.mem_cons_of_mem _ hr)) hne _
                · intro hpos
                  obtain ⟨W, hWf, hWs, hWseen⟩ := hdam
                    (by simpa [RunStats.incTruncated] using hpos)
                  have hne : (W.id == rcd.id) = false := by
                    simp [hdamW W hWf hWseen]
                  refine ⟨W, ?_, hWs, hWseen⟩
                  simp only [Manifest.updateStatus]
                  exact mem_mapIf_of_ne hWf hne _
                · intro _
                  refine
                    ⟨{ rcd with status := .truncated, updatedAt := now },
                      ?_, rfl, ?_⟩
                  · simp only [Manifest.updateStatus]
                    refine List.mem_map.mpr ⟨rcd, hrf, ?_⟩
                    simp
                  · show rcd.id ∉ rest.map (fun x => x.id)
                    exact hidnot
          · rw [if_neg hex]
            exact hdel
      simp only [List.foldl_cons]
      exact ih (phase4Step cfg w now seen s rcd) hnd2 hstep.1 hstep.2.1
        hstep.2.2.1 hstep.2.2.2

theorem cleanup_preserves (cfg : Config) (s : RState) :
    (cleanupOrphanParity cfg s).m = s.m ∧
    (cleanupOrphanParity cfg s).stats.filesDamaged =
      s.stats.filesDamaged ∧
    (cleanupOrphanParity cfg s).stats.filesTruncated =
      s.stats.filesTruncated := by
  unfold cleanupOrphanParity
  refine @foldl_inv RState PFile
    (fun t => t.m = s.m ∧ t.stats.filesDamaged = s.stats.filesDamaged ∧
      t.stats.filesTruncated = s.stats.filesTruncated)
    (orphanStep cfg) ?_ (sortPFiles s.store.files) s ⟨rfl, rfl, rfl⟩
  intro t f ht
  unfold orphanStep
  by_cases h1 : (strEndsWith f.name ".par2" &&
      !(listContainsSub ".vol".data f.name.data)) = true
  · rw [if_pos h1]
    by_cases h2 : t.m.hasPar2Name f.name = true
    · rw [if_pos h2]
      exact ht
    · rw [if_neg h2]
      exact ⟨ht.1, by simpa [RunStats.incOrphan] using ht.2.1,
        by simpa [RunStats.incOrphan] using ht.2.2⟩
  · rw [if_neg h1]
    exact ht

end Par2Integrity

namespace Par2Integrity

theorem subperm_nodup {α : Type} {l1 l2 : List α} (h : List.Subperm l1 l2)
    (hnd : l2.Nodup) : l1.Nodup := by
  obtain ⟨t, hperm, hsl⟩ := h
  exact hperm.nodup_iff.mp (hsl.nodup hnd)

theorem reconcile_status_witness (cfg : Config) (w : World) (now : Nat)
    (m : Manifest) (store0 : ParityStore) (scanned : List FileInfo)
    (vo : Bool) (hwf : idsWF m)
    (hnd : (scanned.map (fun fi => (fi.dataRoot, fi.relPath))).Nodup)
    (hsample : ∀ (l : List (FileInfo × FileRecord)) (n : Nat),
      List.Subperm (w.sample l n) l) :
    ((reconcile cfg w now m store0 scanned vo).stats.filesDamaged > 0 →
      ∃ rc ∈ (reconcile cfg w now m store0 scanned vo).m.files,
        rc.status = .damaged) ∧
    ((reconcile cfg w now m store0 scanned vo).stats.filesTruncated > 0 →
      ∃ rc ∈ (reconcile cfg w now m store0 scanned vo).m.files,
        rc.status = .truncated) := by
  unfold reconcile
  simp only []
  set seen := scanned.map (fun fi => (fi.dataRoot, fi.relPath)) with hseen
  set cls := classify m scanned with hcls
  set toV := (if cls.1.isEmpty = true then
      ([] : List (FileInfo × FileRecord))
    else if cfg.verifyPercent < 100 then
      w.sample cls.1 (max 1 (cls.1.length * cfg.verifyPercent / 100))
    else cls.1) with htoV
  have hsubV : List.Subperm toV cls.1 := by
    rw [htoV]
    split
    · exact List.nil_subperm
    · split
      · exact hsample _ _
      · exact List.Subperm.refl _
  have hVsub : ∀ p ∈ toV, p ∈ cls.1 := fun p hp => hsubV.subset hp
  have hkeysub : ∀ p ∈ toV, (p.1.dataRoot, p.1.relPath) ∈ seen := by
    intro p hp
    have h1 : p.1 ∈ scanned :=
      (classify_fst_sublist m scanned).subset
        (List.mem_map_of_mem Prod.fst (hVsub p hp))
    exact List.mem_map_of_mem _ h1
  have hcurV : curOK toV m := by
    intro p hp
    obtain ⟨-, hg⟩ := classify_mem m scanned p (hVsub p hp)
    obtain ⟨hmem, hd, hr⟩ := getFile_mem hg
    exact ⟨p.2, hmem, rfl, hd, hr⟩
  have hndV : (toV.map (fun p => (p.1.dataRoot, p.1.relPath))).Nodup := by
    have hu : (cls.1.map
        (fun p => (p.1.dataRoot, p.1.relPath))).Nodup := by
      have hs : List.Sublist ((cls.1.map Prod.fst).map
          (fun fi => (fi.dataRoot, fi.relPath))) seen :=
        (classify_fst_sublist m scanned).map _
      rw [List.map_map] at hs
      exact hs.nodup hnd
    have hmap : List.Subperm
        (toV.map (fun p => (p.1.dataRoot, p.1.relPath)))
        (cls.1.map (fun p => (p.1.dataRoot, p.1.relPath))) := by
      obtain ⟨t, hperm, hsl⟩ := hsubV
      exact ⟨t.map _, hperm.map _, hsl.map _⟩
    exact subperm_nodup hmap hu
  have h2 := foldl_inv (phase2Step cfg w now vo seen)
    (phase2Step_p2Inv cfg w now vo seen hkeysub) cls.2
    { m := m, store := store0,
      stats := { RunStats.init with filesScanned := scanned.length } }
    ⟨hwf, hcurV, rfl, rfl⟩
  obtain ⟨hwf2, hcur2, hdam2, htr2⟩ := h2
  have h3 := phase3_fold cfg w now vo seen toV
    (cls.2.foldl (phase2Step cfg w now vo seen)
      { m := m, store := store0,
        stats := { RunStats.init with filesScanned := scanned.length } })
    hwf2 hcur2 hndV hkeysub htr2 (by intro h; omega)
  obtain ⟨hwf3, htr3, hdam3⟩ := h3
  set s3 := toV.foldl (phase3Step cfg w now vo)
    (cls.2.foldl (phase2Step cfg w now vo seen)
      { m := m, store := store0,
        stats := { RunStats.init with filesScanned := scanned.length } })
    with hs3
  rcases vo with _ | _
  · rw [if_neg (by simp), if_neg (by simp)]
    have h4 := phase4_fold cfg w now seen s3.m.files s3 hwf3.1 hwf3
      (fun r hr => hr) hdam3 (by intro h; omega)
    obtain ⟨hdam4, htr4⟩ := h4
    obtain ⟨hm5, hd5, ht5⟩ := cleanup_preserves cfg
      (s3.m.files.foldl (phase4Step cfg w now seen) s3)
    refine ⟨?_, ?_⟩
    · intro h
      rw [hd5] at h
      rw [hm5]
      exact hdam4 h
    · intro h
      rw [ht5] at h
      rw [hm5]
      exact htr4 h
  · rw [if_pos rfl, if_pos rfl]
    refine ⟨?_, ?_⟩
    · intro h
      exact (hdam3 h).imp (fun r hr => ⟨hr.1, hr.2.1⟩)
    · intro h
      omega

end Par2Integrity

namespace Par2Integrity

/-- C4 (amended): the scan exit status is computed from this run's counters,
not from record statuses.  It is 1 exactly when this run counted a damaged
file or — outside verify-only mode — a truncated file, and whenever it is 1
some record of the final manifest indeed has status damaged or truncated.
The record-status-to-exit direction of the original claim is false: a record
already marked damaged by an earlier run does not make a later clean scan
exit 1. -/
theorem C4_exit_code_from_counters (cfg : Config) (w : World) (now : Nat)
    (m0 : Manifest) (store0 : ParityStore) (scanned : List FileInfo)
    (vo : Bool) (hwf : idsWF m0)
    (hnd : (scanned.map (fun fi => (fi.dataRoot, fi.relPath))).Nodup)
    (hsample : ∀ (l : List (FileInfo × FileRecord)) (n : Nat),
      List.Subperm (w.sample l n) l) :
    ((runScan cfg w now m0 store0 scanned vo).2 = 1 ↔
      ((runScan cfg w now m0 store0 scanned vo).1.stats.filesDamaged > 0 ∨
        (vo = false ∧ (runScan cfg w now m0 store0 scanned
          vo).1.stats.filesTruncated > 0))) ∧
    ((runScan cfg w now m0 store0 scanned vo).2 = 1 →
      ∃ rc ∈ (runScan cfg w now m0 store0 scanned vo).1.m.files,
        rc.status = .damaged ∨ rc.status = .truncated) := by
  have hwf1 : idsWF (m0.startRun now).2 := hwf
  have hrec := reconcile_status_witness cfg w now (m0.startRun now).2
    store0 scanned vo hwf1 hnd hsample
  unfold runScan
  simp only []
  unfold scanExitCode
  by_cases hc : (reconcile cfg w now (m0.startRun now).2 store0 scanned
        vo).stats.filesDamaged > 0 ∨ (vo = false ∧
      (reconcile cfg w now (m0.startRun now).2 store0 scanned
        vo).stats.filesTruncated > 0)
  · rw [if_pos hc]
    refine ⟨⟨fun _ => hc, fun _ => rfl⟩, ?_⟩
    intro _
    rcases hc with hd | ⟨_, ht⟩
    · obtain ⟨rc, hmem, hst⟩ := hrec.1 hd
      exact ⟨rc, hmem, Or.inl hst⟩
    · obtain ⟨rc, hmem, hst⟩ := hrec.2 ht
      exact ⟨rc, hmem, Or.inr hst⟩
  · rw [if_neg hc]
    exact ⟨⟨fun h => absurd h (by decide), fun h => absurd h hc⟩,
      fun h => absurd h (by decide)⟩

theorem C4_exit_code_from_counters_witness :
    idsWF manA ∧
    (([fiA].map (fun fi => (fi.dataRoot, fi.relPath))).Nodup) ∧
    (∀ (l : List (FileInfo × FileRecord)) (n : Nat),
      List.Subperm (wC1.sample l n) l) ∧
    (((runScan cfgA wC1 5 manA storeA [fiA] false).2 = 1 ↔
      ((runScan cfgA wC1 5 manA storeA [fiA] false).1.stats.filesDamaged
          > 0 ∨
        (false = false ∧ (runScan cfgA wC1 5 manA storeA [fiA]
          false).1.stats.filesTruncated > 0))) ∧
    ((runScan cfgA wC1 5 manA storeA [fiA] false).2 = 1 →
      ∃ rc ∈ (runScan cfgA wC1 5 manA storeA [fiA] false).1.m.files,
        rc.status = .damaged ∨ rc.status = .truncated)) :=
  ⟨by unfold idsWF; decide, by decide, fun l n => List.Subperm.refl l,
    C4_exit_code_from_counters cfgA wC1 5 manA storeA [fiA] false
      (by unfold idsWF; decide) (by decide)
      (fun l n => List.Subperm.refl l)⟩

end Par2Integrity
